import Mathlib

/-!
# Verification of the Paladin core against its specification

Shallow embedding of the parts of the Paladin node core that the
specification describes: the query-label filters, the domain-context
overlay of the state store, transaction submission idempotency, the
reliable peer-to-peer message loop, and the Zeto domain's coin
selection.  Each definition is translated from the corresponding Go
function; database queries and external callbacks that live outside the
embedded code are taken as explicit parameters or, where the repository
slice does not contain them, modelled from the specification (marked in
their doc comments).
-/

set_option autoImplicit false

namespace Paladin

/-! ## Common identifiers

State ids are `tktypes.HexBytes`; the domain context keys its maps by
their string form, so states are identified by `String` here.
Transaction ids are UUIDs; `0` models the zero UUID.  Schema ids and
nullifier ids are abstract numerals. -/

abbrev StateID := String

abbrev TxID := Nat

abbrev SchemaID := Nat

abbrev NullifierID := Nat

namespace Filters

/-- A parsed JSON value, as produced by `json.Unmarshal` into
`interface{}`: JSON `null` gives a nil interface, booleans and strings
their Go counterparts, numbers `float64`, and arrays / objects slices
and maps (whose contents the bool fields never inspect). -/
inductive JSONValue
  | null
  | bool (b : Bool)
  | str (s : String)
  | num (n : Int)
  | arr
  | obj
  deriving DecidableEq, Repr

/-- A SQL driver value as returned by the field projections:
`nil`, `int64`, `bool` or `string`. -/
inductive SQLValue
  | null
  | int64 (i : Int)
  | bool (b : Bool)
  | str (s : String)
  deriving DecidableEq, Repr

/-- The typed errors of the filters package that the bool fields can
raise (`msgs.MsgFiltersValueInvalidForBool`). -/
inductive FilterError
  | valueInvalidForBool
  deriving DecidableEq, Repr

/-- `strings.EqualFold` restricted to the comparisons the bool fields
perform (against the ASCII literal `"true"`): case-insensitive
equality, character-wise lower-casing. -/
def equalFold (s t : String) : Bool :=
  s.data.map Char.toLower == t.data.map Char.toLower

/-- Modelled from the spec: `pldtypes.RawJSON.IsNil` is not under
`src/`.  The claim and the surrounding filters code treat a nil / JSON
`null` value as SQL NULL, so the nil check holds exactly of the JSON
`null` value. -/
def RawJSON.IsNil : JSONValue → Bool
  | .null => true
  | _ => false

/-- `Int64BoolField.SQLValue` from
`core/go/internal/filters/field_int64_bool.go`: nil JSON is NULL; a
string is `int64(1)` iff it case-folds to `"true"`, else `int64(0)`; a
bool maps to `int64(1)` / `int64(0)`; anything else is an error. -/
def Int64BoolField.SQLValue (jsonValue : JSONValue) : Except FilterError SQLValue :=
  if RawJSON.IsNil jsonValue then .ok .null
  else
    match jsonValue with
    | .str v => if equalFold v "true" then .ok (.int64 1) else .ok (.int64 0)
    | .bool v => if v then .ok (.int64 1) else .ok (.int64 0)
    | _ => .error .valueInvalidForBool

/-- `BooleanField.SQLValue` from
`core/go/internal/filters/field_int64_bool.go`: as `Int64BoolField`
but producing SQL booleans, and passing a JSON bool through. -/
def BooleanField.SQLValue (jsonValue : JSONValue) : Except FilterError SQLValue :=
  if RawJSON.IsNil jsonValue then .ok .null
  else
    match jsonValue with
    | .str v => if equalFold v "true" then .ok (.bool true) else .ok (.bool false)
    | .bool v => .ok (.bool v)
    | _ => .error .valueInvalidForBool

end Filters

namespace Statemgr

/-! ## The domain context (`statemgr`, `domain_context.go`)

The in-memory overlay a domain context keeps on top of the durable
state store: the `unFlushed` / `flushing` write operations, the
creating map and the transaction locks.  Go mutates the context in
place under its mutex; operations here return the successor context
explicitly, together with the error, because a failing call can leave
mutations behind exactly as the Go code does. -/

/-- `components.StateLockType`. -/
inductive StateLockType
  | create
  | read
  | spend
  deriving DecidableEq, Repr

/-- `components.StateLock`; `lockType` is the Go field `Type`. -/
structure StateLock where
  lockType : StateLockType
  Transaction : TxID
  State : StateID
  deriving DecidableEq, Repr

/-- `components.StateNullifier`. -/
structure StateNullifier where
  ID : NullifierID
  State : StateID
  deriving DecidableEq, Repr

/-- `components.State` / `components.StateWithLabels`: the label values
the query engine reads are abstracted into the payload `data`. -/
structure State where
  ID : StateID
  Schema : SchemaID
  data : Nat
  Nullifier : Option StateNullifier
  Locks : List StateLock
  deriving DecidableEq, Repr

/-- The parts of a `writeOperation` the domain context reads. -/
structure WriteOperation where
  states : List State
  stateNullifiers : List StateNullifier
  deriving DecidableEq, Repr

def WriteOperation.empty : WriteOperation := ⟨[], []⟩

/-- The observable completion state of a sealed `writeOperation`:
whether its `flushed` channel is closed and the recorded
`flushResult` (`none` = success). -/
structure Flushing where
  writeOp : WriteOperation
  flushed : Bool
  flushResult : Option String
  deriving DecidableEq, Repr

/-- `domainContext`: the creating map is an association list keyed by
the state-id string, as the Go map `creatingStates` is. -/
structure DomainContext where
  id : Nat
  closed : Bool
  unFlushed : Option WriteOperation
  flushing : Option Flushing
  creatingStates : List (StateID × State)
  txLocks : List StateLock
  deriving DecidableEq, Repr

/-- The typed errors the domain context raises (`msgs.MsgState...`). -/
inductive DCError
  | domainContextClosed
  | flushFailedDomainReset
  | nullifierStateNotInCtx (state : StateID) (id : NullifierID)
  | nullifierConflict (state : StateID) (existing : NullifierID)
  | stateLockNoTransaction
  | stateLockNoState
  | stateLockCreateNotInContext (state : StateID)
  | schemaNotFound (schemaId : SchemaID)
  deriving DecidableEq, Repr

/-- Go map read `dc.creatingStates[k]`. -/
def mapGet (m : List (StateID × State)) (k : StateID) : Option State :=
  (m.find? (fun e => e.1 == k)).map (·.2)

/-- Go map write `dc.creatingStates[k] = v`. -/
def mapPut (m : List (StateID × State)) (k : StateID) (v : State) :
    List (StateID × State) :=
  if (m.find? (fun e => e.1 == k)).isSome
  then m.map (fun e => if e.1 == k then (k, v) else e)
  else m ++ [(k, v)]

/-- Go map delete `delete(dc.creatingStates, k)`. -/
def mapDel (m : List (StateID × State)) (k : StateID) : List (StateID × State) :=
  m.filter (fun e => e.1 != k)

/-- Initialise `dc.unFlushed` with a fresh write operation when nil
(the tail of `checkResetInitUnFlushed`). -/
def initUnFlushed (dc : DomainContext) : DomainContext :=
  match dc.unFlushed with
  | none => { dc with unFlushed := some WriteOperation.empty }
  | some _ => dc

/-- `domainContext.checkResetInitUnFlushed`: fail when closed; fail
when a sealed flush has completed with an error (the "must reset"
condition); otherwise make sure `unFlushed` is initialised. -/
def checkResetInitUnFlushed (dc : DomainContext) : Except DCError DomainContext :=
  if dc.closed then .error .domainContextClosed
  else
    match dc.flushing with
    | some f =>
      if f.flushed && f.flushResult.isSome then .error .flushFailedDomainReset
      else .ok (initUnFlushed dc)
    | none => .ok (initUnFlushed dc)

/-- Whether the sealed flush of the context has completed with an
error — the condition `checkResetInitUnFlushed` reports as "must
reset". -/
def DomainContext.flushFailed (dc : DomainContext) : Bool :=
  match dc.flushing with
  | some f => f.flushed && f.flushResult.isSome
  | none => false

/-- The state-ids carried by spend locks of the context (the `spending`
list built by `getUnFlushedStates`). -/
def DomainContext.spendingLocked (dc : DomainContext) : List StateID :=
  (dc.txLocks.filter (fun l => l.lockType == .spend)).map (·.State)

/-- `domainContext.getUnFlushedStates`: spending ids from spend locks,
the (never populated) `spent` list, and the nullifiers of the
unflushed and flushing write operations. -/
def getUnFlushedStates (dc : DomainContext) :
    Except DCError (List StateID × List StateID × List StateNullifier × DomainContext) := do
  let dc ← checkResetInitUnFlushed dc
  let spending := dc.spendingLocked
  let spent : List StateID := []
  let nullifiers := (dc.unFlushed.map (·.stateNullifiers)).getD []
    ++ (dc.flushing.map (·.writeOp.stateNullifiers)).getD []
  .ok (spending, spent, nullifiers, dc)

/-- A `query.QueryJSON` abstracted to what the context consumes: the
evaluated match predicate over the label payload, the sort key, and
the optional limit. -/
structure QueryJSON where
  matchesQ : Nat → Bool
  sortKey : Nat → Nat
  Limit : Option Nat

/-- `filters.SortValueSetInPlace` under the query's sort instruction:
a sort of the states by the query's key. -/
def sortStates (q : QueryJSON) (l : List State) : List State :=
  List.insertionSort (fun a b => q.sortKey a.data ≤ q.sortKey b.data) l

/-- Truncation to the query limit (`mergeInMemoryMatches` tail). -/
def takeLimit (lim : Option Nat) (l : List State) : List State :=
  match lim with
  | some n => l.take n
  | none => l

/-- `domainContext.applyLocks`: attach to each state every lock of the
context held for its id. -/
def applyLocks (dc : DomainContext) (states : List State) : List State :=
  states.map fun s => { s with Locks := dc.txLocks.filter (fun l => l.State == s.ID) }

/-- Whether the context holds a spend lock for a state id. -/
def DomainContext.spendLockedOn (dc : DomainContext) (id : StateID) : Bool :=
  dc.txLocks.any (fun l => l.State == id && l.lockType == .spend)

/-- The creating-map scan of `mergeUnFlushedApplyLocks`: keep creating
states of the schema that are not spend-locked, carry a nullifier when
one is required, match the query, and are not already among the
database results. -/
def overlayMatches (dc : DomainContext) (schemaId : SchemaID) (dbStates : List State)
    (q : QueryJSON) (requireNullifier : Bool) : List State :=
  (dc.creatingStates.map (·.2)).filter fun s =>
    s.Schema == schemaId
    && !(dc.spendLockedOn s.ID)
    && (!requireNullifier || s.Nullifier.isSome)
    && q.matchesQ s.data
    && !(dbStates.any (fun d => d.ID == s.ID))

/-- `domainContext.mergeInMemoryMatches`: append the extras whose ids
are not persisted, re-sort under the query's sort, truncate to the
query limit. -/
def mergeInMemoryMatches (dbStates : List State) (extras : List State)
    (q : QueryJSON) : List State :=
  let persistedStateIDs := dbStates.map (·.ID)
  let fullList := dbStates ++ extras.filter (fun s => !(persistedStateIDs.contains s.ID))
  takeLimit q.Limit (sortStates q fullList)

/-- `domainContext.mergeUnFlushedApplyLocks`. -/
def mergeUnFlushedApplyLocks (dc : DomainContext) (schemaId : SchemaID)
    (dbStates : List State) (q : QueryJSON) (requireNullifier : Bool) :
    Except DCError (List State × DomainContext) := do
  let dc ← checkResetInitUnFlushed dc
  let stateMatches := overlayMatches dc schemaId dbStates q requireNullifier
  let retStates := if stateMatches.isEmpty then dbStates
    else mergeInMemoryMatches dbStates stateMatches q
  .ok (applyLocks dc retStates, dc)

/-- The durable state store for one (domain, contract): its rows and
the state-ids recorded as spent (`state_spends`). -/
structure DurableStore where
  states : List State
  spentIds : List StateID

/-- Modelled from the spec: `stateManager.findStates` is not under
`src/`.  Per §4.2 the durable query "runs the query against durable
storage excluding state-ids that are spent or spend-locked in this
context": rows of the schema, not recorded spent, not in the excluded
id list, matching the query, under the query's sort and limit. -/
def findStates (store : DurableStore) (schemaId : SchemaID) (q : QueryJSON)
    (excluded : List StateID) : List State :=
  takeLimit q.Limit (sortStates q (store.states.filter fun s =>
    s.Schema == schemaId && !(store.spentIds.contains s.ID)
      && !(excluded.contains s.ID) && q.matchesQ s.data))

/-- `domainContext.FindAvailableStates`. -/
def FindAvailableStates (dc : DomainContext) (store : DurableStore)
    (schemaId : SchemaID) (q : QueryJSON) :
    Except DCError (List State × DomainContext) := do
  let (spending, spent, _, dc) ← getUnFlushedStates dc
  let spending := spending ++ spent
  let dbStates := findStates store schemaId q spending
  mergeUnFlushedApplyLocks dc schemaId dbStates q false

/-- Modelled from the spec: `stateManager.findAvailableNullifiers` is
not under `src/`.  Per §4.2 it is the durable query restricted to
states that carry a nullifier (durable, or among the unflushed
nullifier state-ids passed down), excluding spending and spent ids. -/
def findAvailableNullifiersDb (store : DurableStore) (schemaId : SchemaID)
    (q : QueryJSON) (statesWithNullifiers spending spent : List StateID) : List State :=
  takeLimit q.Limit (sortStates q (store.states.filter fun s =>
    s.Schema == schemaId && !(store.spentIds.contains s.ID)
      && !(spending.contains s.ID) && !(spent.contains s.ID)
      && (s.Nullifier.isSome || statesWithNullifiers.contains s.ID)
      && q.matchesQ s.data))

/-- `domainContext.FindAvailableNullifiers`. -/
def FindAvailableNullifiers (dc : DomainContext) (store : DurableStore)
    (schemaId : SchemaID) (q : QueryJSON) :
    Except DCError (List State × DomainContext) := do
  let (spending, spent, nullifiers, dc) ← getUnFlushedStates dc
  let statesWithNullifiers := nullifiers.map (·.State)
  let dbStates := findAvailableNullifiersDb store schemaId q statesWithNullifiers spending spent
  let dbStates := dbStates.map fun s =>
    if s.Nullifier.isNone then
      match nullifiers.find? (fun n => n.State == s.ID) with
      | some n => { s with Nullifier := some n }
      | none => s
    else s
  mergeUnFlushedApplyLocks dc schemaId dbStates q true

/-- `components.StateUpsert`. -/
structure StateUpsert where
  ID : StateID
  SchemaID : SchemaID
  Data : Nat
  CreatedBy : Option TxID
  deriving DecidableEq, Repr

/-- `domainContext.addStateLocks`: validate and append the locks one
by one; a failing lock leaves the earlier appends in place, exactly as
the in-place Go loop does. -/
def addStateLocks (dc : DomainContext) : List StateLock → DomainContext × Option DCError
  | [] => (dc, none)
  | l :: rest =>
    if l.Transaction == 0 then (dc, some .stateLockNoTransaction)
    else if l.State.isEmpty then (dc, some .stateLockNoState)
    else if l.lockType == .create && (mapGet dc.creatingStates l.State).isNone then
      (dc, some (.stateLockCreateNotInContext l.State))
    else
      addStateLocks { dc with txLocks := dc.txLocks ++ [l] } rest

/-- `domainContext.AddStateLocks`. -/
def AddStateLocks (dc : DomainContext) (locks : List StateLock) :
    DomainContext × Option DCError :=
  match checkResetInitUnFlushed dc with
  | .error e => (dc, some e)
  | .ok dc => addStateLocks dc locks

/-- `schema.ProcessState` for one upsert: the materialised state with
its labels (abstracted into `data`). -/
def upsertState (ns : StateUpsert) : State :=
  { ID := ns.ID, Schema := ns.SchemaID, data := ns.Data
    Nullifier := none, Locks := [] }

/-- The first loop of `domainContext.UpsertStates`: schema lookup and
`schema.ProcessState` for each upsert, collecting the materialised
states, the create locks, and the states to make available. -/
def processUpserts (schemaExists : SchemaID → Bool) :
    List StateUpsert → Except DCError (List State × List StateLock × List State)
  | [] => .ok ([], [], [])
  | ns :: rest =>
    if !schemaExists ns.SchemaID then .error (.schemaNotFound ns.SchemaID)
    else
      let vs : State := upsertState ns
      match processUpserts schemaExists rest with
      | .error e => .error e
      | .ok (states, locks, avail) =>
        match ns.CreatedBy with
        | some txId =>
          .ok (vs :: states,
            { lockType := .create, Transaction := txId, State := vs.ID } :: locks,
            vs :: avail)
        | none => .ok (vs :: states, locks, avail)

/-- `domainContext.UpsertStates`: de-duplicate previous unflushed
writes of the same ids, append the new writes, record the creating
states, then add the create locks. -/
def UpsertStates (schemaExists : SchemaID → Bool) (dc : DomainContext)
    (stateUpserts : List StateUpsert) : DomainContext × Except DCError (List State) :=
  match processUpserts schemaExists stateUpserts with
  | .error e => (dc, .error e)
  | .ok (withValues, stateLocks, toMakeAvailable) =>
    match checkResetInitUnFlushed dc with
    | .error e => (dc, .error e)
    | .ok dc =>
      let uf := dc.unFlushed.getD WriteOperation.empty
      let deDupped := uf.states.filter
        (fun existing => !(withValues.any (fun s => existing.ID == s.ID)))
      let dc := { dc with unFlushed := some { uf with states := deDupped ++ withValues } }
      let dc := toMakeAvailable.foldl
        (fun dc s => { dc with creatingStates := mapPut dc.creatingStates s.ID s }) dc
      match addStateLocks dc stateLocks with
      | (dc, some e) => (dc, .error e)
      | (dc, none) => (dc, .ok withValues)

/-- The assignment `creatingState.Nullifier = nullifier` of
`UpsertNullifiers`, written back into the creating map. -/
def assignNullifier (dc : DomainContext) (creatingState : State)
    (nullifier : StateNullifier) : DomainContext :=
  { dc with creatingStates :=
      mapPut dc.creatingStates nullifier.State { creatingState with Nullifier := some nullifier } }

/-- The validation loop of `domainContext.UpsertNullifiers`: the
nullifiers are checked in order against the creating map; a passing
nullifier is assigned onto its creating state before the next is
checked, and a failing one aborts with the mutations so far kept. -/
def upsertNullifiersLoop (dc : DomainContext) :
    List StateNullifier → DomainContext × Option DCError
  | [] => (dc, none)
  | nullifier :: rest =>
    match mapGet dc.creatingStates nullifier.State with
    | none => (dc, some (.nullifierStateNotInCtx nullifier.State nullifier.ID))
    | some creatingState =>
      match creatingState.Nullifier with
      | some existing =>
        if existing.ID != nullifier.ID then
          (dc, some (.nullifierConflict nullifier.State existing.ID))
        else
          upsertNullifiersLoop (assignNullifier dc creatingState nullifier) rest
      | none =>
        upsertNullifiersLoop (assignNullifier dc creatingState nullifier) rest

/-- `domainContext.UpsertNullifiers`: the nullifiers are appended to
the unflushed write operation first, then validated against the
creating map. -/
def UpsertNullifiers (dc : DomainContext) (nullifiers : List StateNullifier) :
    DomainContext × Option DCError :=
  match checkResetInitUnFlushed dc with
  | .error e => (dc, some e)
  | .ok dc =>
    let uf := dc.unFlushed.getD WriteOperation.empty
    let dc := { dc with
      unFlushed := some { uf with stateNullifiers := uf.stateNullifiers ++ nullifiers } }
    upsertNullifiersLoop dc nullifiers

/-- Claim-side (follows the amended claim's words, for comparison with
`upsertNullifiersLoop`): assigning one supplied nullifier onto its
creating-map state; no change when the state is absent — the call
errors there instead. -/
def assignOneNullifier (m : List (StateID × State)) (n : StateNullifier) :
    List (StateID × State) :=
  match mapGet m n.State with
  | none => m
  | some st => mapPut m n.State { st with Nullifier := some n }

/-- Claim-side: assigning a batch of nullifiers in order. -/
def assignAllNullifiers (m : List (StateID × State)) :
    List StateNullifier → List (StateID × State)
  | [] => m
  | n :: rest => assignAllNullifiers (assignOneNullifier m n) rest

/-- Claim-side: the per-element failure rule — the nullifier's state is
not in the creating map, or a different nullifier (different id)
already exists for that state. -/
def nullifierFailsAt (m : List (StateID × State)) (n : StateNullifier) :
    Option DCError :=
  match mapGet m n.State with
  | none => some (.nullifierStateNotInCtx n.State n.ID)
  | some st =>
    match st.Nullifier with
    | some ex =>
      if ex.ID != n.ID then some (.nullifierConflict n.State ex.ID) else none
    | none => none

/-- Claim-side: a batch is valid when, checked in order with each
passing nullifier assigned onto its creating state before the next
check, no element fails. -/
def validNullifierBatch (m : List (StateID × State)) :
    List StateNullifier → Bool
  | [] => true
  | n :: rest =>
    (nullifierFailsAt m n).isNone && validNullifierBatch (assignOneNullifier m n) rest

/-- `domainContext.ClearTransactions`: walk the lock list, dropping
locks of the given transactions; a dropped create lock also deletes
the creating-map entry for its state. -/
def ClearTransactions (dc : DomainContext) (transactions : List TxID) : DomainContext :=
  let res := dc.txLocks.foldl
    (fun (acc : List (StateID × State) × List StateLock) lock =>
      if transactions.contains lock.Transaction then
        if lock.lockType == .create then (mapDel acc.1 lock.State, acc.2)
        else (acc.1, acc.2)
      else (acc.1, acc.2 ++ [lock]))
    (dc.creatingStates, [])
  { dc with creatingStates := res.1, txLocks := res.2 }

/-- `domainContext.Reset`: after waiting out any in-flight flush (whose
result is only logged), discard the creating map, both write-operation
slots and the locks. -/
def Reset (dc : DomainContext) : DomainContext :=
  { dc with creatingStates := [], flushing := none, unFlushed := none, txLocks := [] }

/-- `domainContext.InitiateFlush` seal step: the unflushed write
operation becomes the sealed flushing one (not yet completed), and
`unFlushed` is cleared. -/
def InitiateFlush (dc : DomainContext) : DomainContext :=
  { dc with
    flushing := dc.unFlushed.map (fun w => { writeOp := w, flushed := false, flushResult := none })
    unFlushed := none }

/-- `domainContext.doFlush` completion: the flush writer records its
result and closes the `flushed` channel. -/
def flushCompletes (dc : DomainContext) (result : Option String) : DomainContext :=
  { dc with flushing := dc.flushing.map (fun f => { f with flushed := true, flushResult := result }) }

/-- The in-process registry of `stateManager`. -/
structure StateManager where
  domainContexts : List (Nat × DomainContext)

/-- `stateManager.GetDomainContext`: nil if not found. -/
def GetDomainContext (ss : StateManager) (id : Nat) : Option DomainContext :=
  (ss.domainContexts.find? (fun e => e.1 == id)).map (·.2)

/-- `domainContext.Close`: mark the context closed and remove it from
the manager's registry. -/
def Close (ss : StateManager) (dc : DomainContext) : StateManager × DomainContext :=
  let dc := { dc with closed := true }
  ({ domainContexts := ss.domainContexts.filter (fun e => e.1 != dc.id) }, dc)

/-- De-duplication by state id keeping the first occurrence, used to
phrase claim C1's "de-duplicated by state-id". -/
def dedupById (l : List State) : List State :=
  go [] l
where
  go (seen : List StateID) : List State → List State
    | [] => []
    | s :: rest =>
      if seen.contains s.ID then go seen rest
      else s :: go (s.ID :: seen) rest

/-- The result of `FindAvailableStates` exactly as claim C1 words it:
the durable states matching the query that are not spent or
spend-locked in the context, merged with the creating-map states of
the schema that satisfy the query, de-duplicated by state-id,
re-sorted under the query's sort, truncated to the query limit, every
state carrying the locks held for it. -/
def findAvailableStatesClaim (dc : DomainContext) (store : DurableStore)
    (schemaId : SchemaID) (q : QueryJSON) : List State :=
  let durablePart := findStates store schemaId q dc.spendingLocked
  let overlayPart := (dc.creatingStates.map (·.2)).filter fun s =>
    s.Schema == schemaId && q.matchesQ s.data
  applyLocks dc (takeLimit q.Limit (sortStates q (dedupById (durablePart ++ overlayPart))))

/-- Claim C1 amended: as `findAvailableStatesClaim`, except that the
creating-map states that are spend-locked in the context are excluded
from the merge as well. -/
def findAvailableStatesAmendedClaim (dc : DomainContext) (store : DurableStore)
    (schemaId : SchemaID) (q : QueryJSON) : List State :=
  let durablePart := findStates store schemaId q dc.spendingLocked
  let overlayPart := (dc.creatingStates.map (·.2)).filter fun s =>
    s.Schema == schemaId && !(dc.spendLockedOn s.ID) && q.matchesQ s.data
  applyLocks dc (takeLimit q.Limit (sortStates q (dedupById (durablePart ++ overlayPart))))

/-! Concrete contexts used to evaluate the claims on explicit
inputs. -/

/-- A live empty context with the unflushed slot initialised. -/
def dcC4 : DomainContext :=
  { id := 1, closed := false, unFlushed := some .empty, flushing := none,
    creatingStates := [], txLocks := [] }

def nC4 : StateNullifier := { ID := 1, State := "s1" }

/-- A creating state with no nullifier yet, for the C4 witness. -/
def stC4 : State :=
  { ID := "s1", Schema := 1, data := 0, Nullifier := none, Locks := [] }

/-- A live context whose creating map holds `stC4`. -/
def dcC4b : DomainContext :=
  { id := 1, closed := false, unFlushed := some .empty, flushing := none,
    creatingStates := [("s1", stC4)], txLocks := [] }

/-- A nullifier for the creating state `s1` (validates). -/
def n1C4 : StateNullifier := { ID := 1, State := "s1" }

/-- A nullifier for the absent state `s2` (fails). -/
def n2C4 : StateNullifier := { ID := 2, State := "s2" }

def stC5 : State := { ID := "s1", Schema := 1, data := 0, Nullifier := none, Locks := [] }

/-- A context holding one unflushed created state with its create
lock. -/
def dcC5 : DomainContext :=
  { id := 2, closed := false,
    unFlushed := some { states := [stC5], stateNullifiers := [] },
    flushing := none, creatingStates := [("s1", stC5)],
    txLocks := [{ lockType := .create, Transaction := 7, State := "s1" }] }

/-- A context holding one spend lock, for the closed-context claims. -/
def dcC8 : DomainContext :=
  { id := 3, closed := false, unFlushed := none, flushing := none,
    creatingStates := [],
    txLocks := [{ lockType := .spend, Transaction := 5, State := "s2" }] }

def ssC8 : StateManager := { domainContexts := [(3, dcC8)] }

def stC1 : State := { ID := "s1", Schema := 1, data := 5, Nullifier := none, Locks := [] }

/-- A context whose creating state is spend-locked by the same
context. -/
def dcC1 : DomainContext :=
  { id := 4, closed := false,
    unFlushed := some { states := [stC1], stateNullifiers := [] },
    flushing := none, creatingStates := [("s1", stC1)],
    txLocks := [{ lockType := .create, Transaction := 9, State := "s1" },
                { lockType := .spend, Transaction := 9, State := "s1" }] }

def qC1 : QueryJSON := { matchesQ := fun _ => true, sortKey := fun d => d, Limit := none }

def storeC1 : DurableStore := { states := [], spentIds := [] }

/-- A live empty context for the flush-failure claim. -/
def dcC6 : DomainContext :=
  { id := 5, closed := false, unFlushed := some .empty, flushing := none,
    creatingStates := [], txLocks := [] }

def storeC6 : DurableStore := { states := [], spentIds := [] }

/-- A live context for the repeated-upsert claim, with one unflushed
state to be replaced. -/
def dcC7 : DomainContext :=
  { id := 6, closed := false,
    unFlushed := some { states := [{ ID := "s1", Schema := 1, data := 3,
                                     Nullifier := none, Locks := [] }],
                        stateNullifiers := [] },
    flushing := none, creatingStates := [], txLocks := [] }

def upsertC7 : StateUpsert := { ID := "s1", SchemaID := 1, Data := 4, CreatedBy := some 9 }

end Statemgr

namespace Txmgr

/-! ## Transaction submission (`txmgr`, `transaction_submission.go`)

The insertion path of `processNewTransactions` and the post-rollback
idempotency-key check. -/

/-- The field of `pldapi.TransactionInput` the idempotency path reads:
the optional idempotency key, `""` meaning absent. -/
structure TransactionInput where
  IdempotencyKey : String
  deriving DecidableEq, Repr

/-- A row of the `transactions` table as the idempotency path sees it. -/
structure PersistedTransaction where
  ID : TxID
  IdempotencyKey : Option String
  deriving DecidableEq, Repr

abbrev TransactionsTable := List PersistedTransaction

/-- The errors of the submission path: the database unique-index
violation surfaced by the insert, and the idempotency-key clash error
(`msgs.MsgTxMgrIdempotencyKeyClash`) carrying the `key=id` pairs of
the conflicting existing transactions. -/
inductive TxError
  | insertConflict
  | idempotencyKeyClash (existing : List (String × TxID))
  deriving DecidableEq, Repr

/-- `notEmptyOrNull`. -/
def notEmptyOrNull (s : String) : Option String :=
  if s.isEmpty then none else some s

/-- `txManager.insertTransactions` on the `processNewTransactions`
path (`ignoreConflicts=false`): the batch insert fails on the unique
index over `idempotency_key` — when a supplied key already has a row,
or when the batch itself repeats a key — and a failed statement
inserts nothing.  The uniqueness of the column is the schema's
(spec §3: "optional idempotency-key unique"). -/
def insertTransactions (db : TransactionsTable) (rows : List PersistedTransaction) :
    Except TxError TransactionsTable :=
  if rows.any (fun r => r.IdempotencyKey.isSome &&
       (db.any (fun e => e.IdempotencyKey == r.IdempotencyKey)
        || rows.any (fun e => e.IdempotencyKey == r.IdempotencyKey && e.ID != r.ID)))
  then .error .insertConflict
  else .ok (db ++ rows)

/-- `txManager.checkIdempotencyKeys`: outside the rolled-back
transaction, query for the submitted idempotency keys (limited to
their number); when matching rows exist replace the insertion error
with the clash error listing `key=id` for each, otherwise return the
original error. -/
def checkIdempotencyKeys (origErr : TxError) (txis : List TransactionInput)
    (db : TransactionsTable) : TxError :=
  let idempotencyKeys :=
    (txis.filter (fun tx => !tx.IdempotencyKey.isEmpty)).map (·.IdempotencyKey)
  if !idempotencyKeys.isEmpty then
    let existingTxs := (db.filter (fun e =>
      e.IdempotencyKey.isSome && idempotencyKeys.contains (e.IdempotencyKey.getD ""))).take
        idempotencyKeys.length
    if !existingTxs.isEmpty then
      .idempotencyKeyClash (existingTxs.map (fun tx => (tx.IdempotencyKey.getD "", tx.ID)))
    else origErr
  else origErr

/-- `txManager.processNewTransactions`, restricted to the transaction
insertion and idempotency handling (function resolution,
public-transaction staging and the private hand-off are orthogonal to
the idempotency claim): each input gets a fresh id; on insert failure
the enclosing database transaction rolls back — the table reverts —
and the registered post-rollback hook maps the error through
`checkIdempotencyKeys` against the datastore outside any
transaction. -/
def processNewTransactions (db : TransactionsTable) (txs : List TransactionInput)
    (freshIds : List TxID) : TransactionsTable × Except TxError (List TxID) :=
  let rows := (txs.zip freshIds).map
    (fun p => { ID := p.2, IdempotencyKey := notEmptyOrNull p.1.IdempotencyKey })
  match insertTransactions db rows with
  | .error e => (db, .error (checkIdempotencyKeys e txs db))
  | .ok db2 => (db2, .ok (rows.map (·.ID)))

end Txmgr

namespace Transportmgr

/-! ## The peer's reliable-message loop (`transportmgr`, `peer.go`)

`reliableMessageScan` and `processReliableMsgPage` over the
`reliable_messages` / `reliable_message_acks` tables. -/

/-- `components.ReliableMessageType`: state distributions are the
supported kind; receipts fall through to the unsupported-type error. -/
inductive RMType
  | state
  | receipt
  deriving DecidableEq, Repr

/-- A row of `reliable_messages`. -/
structure ReliableMessage where
  Sequence : Nat
  ID : Nat
  MessageType : RMType
  Created : Nat
  deriving DecidableEq, Repr

/-- A row of `reliable_message_acks`. -/
structure ReliableMessageAck where
  MessageID : Nat
  Time : Nat
  Error : String
  deriving DecidableEq, Repr

/-- The two tables the scan touches. -/
structure RMDb where
  msgs : List ReliableMessage
  acks : List ReliableMessageAck
  deriving DecidableEq, Repr

/-- Whether an ack row exists for a message id (ack rows are always
written with a time, so `"Ack"."time" IS NULL` holds exactly of rows
without one). -/
def RMDb.hasAck (db : RMDb) (id : Nat) : Bool :=
  db.acks.any (fun a => a.MessageID == id)

/-- The three-way outcome of `peer.buildStateDistributionMsg`: a built
wire message, a permanent data error (bad metadata, or state not
available locally) to be acked, or a retryable infrastructure
error. -/
inductive BuildOutcome
  | ok
  | permanentError (e : String)
  | retryableError
  deriving DecidableEq, Repr

/-- The peer's surroundings for one scan: the outcome of building each
state-distribution message, the transport send outcome after the
short-retry sender, the configured resend interval and page size, and
the current time. -/
structure PeerEnv where
  build : ReliableMessage → BuildOutcome
  sendOk : ReliableMessage → Bool
  reliableMessageResend : Nat
  reliableMessagePageSize : Nat
  now : Nat

/-- The sender-loop fields the scan reads and writes. -/
structure ScanState where
  lastFullScan : Nat
  lastDrainHWM : Option Nat
  persistentMsgsDrained : Bool
  deriving DecidableEq, Repr

/-- The `ORDER BY sequence ASC` of the scan query. -/
def sortBySeq (l : List ReliableMessage) : List ReliableMessage :=
  List.insertionSort (fun a b => a.Sequence ≤ b.Sequence) l

/-- One page query of `reliableMessageScan`: unacked rows, above the
page cursor — or above the drain high-water mark when not a full scan
(the mark is always set then; the nil fallback is unreachable) — in
sequence order, limited to the page size. -/
def scanPage (env : PeerEnv) (db : RMDb) (fullScan : Bool) (hwm : Option Nat)
    (lastPageEnd : Option Nat) : List ReliableMessage :=
  let cond := fun (m : ReliableMessage) =>
    !(db.hasAck m.ID) &&
    (match lastPageEnd with
     | some e => decide (e < m.Sequence)
     | none =>
       if fullScan then true
       else
         match hwm with
         | some h => decide (h < m.Sequence)
         | none => true)
  (sortBySeq (db.msgs.filter cond)).take env.reliableMessagePageSize

/-- The eligibility check at the top of `processReliableMsgPage`: the
row is after the drain high-water mark, or is old enough for
re-send. -/
def eligibleForSend (env : PeerEnv) (hwm : Option Nat) (rm : ReliableMessage) : Bool :=
  (match hwm with
   | none => true
   | some h => decide (h < rm.Sequence))
  || decide (env.reliableMessageResend ≤ env.now - rm.Created)

/-- The per-type dispatch of `processReliableMsgPage`: state
distributions go through the builder; receipts fall through to the
unsupported-type permanent error. -/
def buildOutcomeFor (env : PeerEnv) (rm : ReliableMessage) : BuildOutcome :=
  match rm.MessageType with
  | .state => env.build rm
  | .receipt => .permanentError "unsupported reliable message type"

/-- The first loop of `processReliableMsgPage`: collect the wire
messages to send and the error acks to persist, in page order; a
retryable build error aborts the whole page (`none`) before anything
is persisted. -/
def buildPhase (env : PeerEnv) (hwm : Option Nat) :
    List ReliableMessage → Option (List ReliableMessage × List ReliableMessageAck)
  | [] => some ([], [])
  | rm :: rest =>
    if !(eligibleForSend env hwm rm) then buildPhase env hwm rest
    else
      match buildOutcomeFor env rm with
      | .retryableError => none
      | .permanentError e =>
        (buildPhase env hwm rest).map
          (fun p => (p.1, { MessageID := rm.ID, Time := env.now, Error := e } :: p.2))
      | .ok => (buildPhase env hwm rest).map (fun p => (rm :: p.1, p.2))

/-- The error-ack insert with `OnConflict DoNothing`: rows whose
message id already has an ack are skipped. -/
def persistAcks (db : RMDb) (errorAcks : List ReliableMessageAck) : RMDb :=
  { db with acks := db.acks ++ errorAcks.filter (fun a => !(db.hasAck a.MessageID)) }

/-- The send loop tail of `processReliableMsgPage`: messages go out in
order and the page fails on the first send error, keeping the
already-sent prefix. -/
def sendPhase (env : PeerEnv) : List ReliableMessage → List ReliableMessage × Bool
  | [] => ([], true)
  | m :: rest =>
    if env.sendOk m then
      let r := sendPhase env rest
      (m :: r.1, r.2)
    else ([], false)

/-- The observable outcome of one page (or one whole scan): the
updated tables, the reliable messages sent, and whether the call
returned without error. -/
structure PageOutcome where
  db : RMDb
  sent : List ReliableMessage
  ok : Bool
  deriving DecidableEq, Repr

/-- `peer.processReliableMsgPage`. -/
def processReliableMsgPage (env : PeerEnv) (db : RMDb) (hwm : Option Nat)
    (page : List ReliableMessage) : PageOutcome :=
  match buildPhase env hwm page with
  | none => { db := db, sent := [], ok := false }
  | some (msgsToSend, errorAcks) =>
    let db := persistAcks db errorAcks
    let r := sendPhase env msgsToSend
    { db := db, sent := r.1, ok := r.2 }

/-- The scan result: tables, updated sender-loop state, sent messages,
success flag. -/
structure ScanOutcome where
  db : RMDb
  scanState : ScanState
  sent : List ReliableMessage
  ok : Bool
  deriving DecidableEq, Repr

/-- The bookkeeping after the page loop of `reliableMessageScan`: the
drain high-water mark is set from the last page end (also on an empty
full scan), and a full scan records whether the store was drained and
the scan time. -/
def finishScan (env : PeerEnv) (st : ScanState) (fullScan : Bool)
    (lastPageEnd : Option Nat) (total : Nat) : ScanState :=
  let st := if lastPageEnd.isSome || fullScan then { st with lastDrainHWM := lastPageEnd } else st
  if fullScan then { st with persistentMsgsDrained := total == 0, lastFullScan := env.now }
  else st

/-- The page loop of `reliableMessageScan`, with explicit fuel (the Go
loop re-queries until a short page; the top-level call passes enough
fuel for any database).  A failing page returns with the sender-loop
state unchanged, exactly as the early `return err` does. -/
def scanLoop (env : PeerEnv) (st : ScanState) (fullScan : Bool) :
    Nat → RMDb → Option Nat → Nat → List ReliableMessage → ScanOutcome
  | 0, db, _lastPageEnd, _total, sent =>
    { db := db, scanState := st, sent := sent, ok := false }
  | fuel+1, db, lastPageEnd, total, sent =>
    let page := scanPage env db fullScan st.lastDrainHWM lastPageEnd
    let res := processReliableMsgPage env db st.lastDrainHWM page
    if !res.ok then
      { db := res.db, scanState := st, sent := sent ++ res.sent, ok := false }
    else
      let next :=
        match page.getLast? with
        | some last => (some last.Sequence, total + page.length)
        | none => (lastPageEnd, total)
      if page.length < env.reliableMessagePageSize then
        { db := res.db, scanState := finishScan env st fullScan next.1 next.2,
          sent := sent ++ res.sent, ok := true }
      else
        scanLoop env st fullScan fuel res.db next.1 next.2 (sent ++ res.sent)

/-- `peer.reliableMessageScan`: a no-op unless a full scan is due
(first pass, or resend interval elapsed) or new persisted messages
were signalled; otherwise drain the pages. -/
def reliableMessageScan (env : PeerEnv) (st : ScanState) (db : RMDb)
    (checkNew : Bool) : ScanOutcome :=
  let fullScan := st.lastDrainHWM.isNone
    || env.reliableMessageResend ≤ env.now - st.lastFullScan
  if !fullScan && !checkNew then { db := db, scanState := st, sent := [], ok := true }
  else scanLoop env st fullScan (db.msgs.length + 1) db none 0 []

/-- Whether a row passes the page-cursor condition of a full scan (no
drain high-water mark): above the last page end, or unconditionally on
the first page. -/
def condSeqB (lastPageEnd : Option Nat) (m : ReliableMessage) : Bool :=
  match lastPageEnd with
  | some e => decide (e < m.Sequence)
  | none => true

/-- The unacked rows above the page cursor: what a full scan still has
to page through. -/
def pendingRows (db : RMDb) (lastPageEnd : Option Nat) : List ReliableMessage :=
  db.msgs.filter (fun m => !(db.hasAck m.ID) && condSeqB lastPageEnd m)

/-- Whether the builder produces a wire message for this row. -/
def buildOk (env : PeerEnv) (m : ReliableMessage) : Bool :=
  match buildOutcomeFor env m with
  | .ok => true
  | _ => false

/-- Whether the builder fails permanently for this row. -/
def buildPermErr (env : PeerEnv) (m : ReliableMessage) : Bool :=
  match buildOutcomeFor env m with
  | .permanentError _ => true
  | _ => false

/-- The error ack `processReliableMsgPage` writes for a permanently
failed row. -/
def ackOf (env : PeerEnv) (m : ReliableMessage) : ReliableMessageAck :=
  { MessageID := m.ID, Time := env.now,
    Error := match buildOutcomeFor env m with
             | .permanentError e => e
             | _ => "" }

/-- A concrete peer environment: page size one, a builder that fails
permanently on message id 2, a transport that accepts everything. -/
def envC2 : PeerEnv :=
  { build := fun m => if m.ID == 2 then .permanentError "bad" else .ok,
    sendOk := fun _ => true, reliableMessageResend := 100,
    reliableMessagePageSize := 1, now := 5 }

/-- A fresh sender-loop state: no drain mark yet. -/
def stC2 : ScanState :=
  { lastFullScan := 0, lastDrainHWM := none, persistentMsgsDrained := false }

/-- A buildable, unacked reliable message. -/
def m1C2 : ReliableMessage :=
  { Sequence := 1, ID := 1, MessageType := .state, Created := 0 }

/-- An unacked reliable message whose wire form fails permanently. -/
def m2C2 : ReliableMessage :=
  { Sequence := 2, ID := 2, MessageType := .state, Created := 0 }

/-- A reliable message that already has an ack row. -/
def m3C2 : ReliableMessage :=
  { Sequence := 3, ID := 3, MessageType := .state, Created := 0 }

/-- Three persisted messages, one acked. -/
def dbC2 : RMDb :=
  { msgs := [m1C2, m2C2, m3C2],
    acks := [{ MessageID := 3, Time := 1, Error := "" }] }

end Transportmgr

namespace Zeto

/-! ## Zeto coin selection (`domains/zeto`, `states.go`)

`Zeto.prepareInputs`: page through the available coins of the sender
until the transfer amount is covered. -/

/-- `types.ZetoCoin` as the selection reads it: the amount
(`tktypes.HexUint256`, non-negative). -/
structure ZetoCoin where
  Amount : Nat
  deriving DecidableEq, Repr

/-- `pb.StoredState` as the Zeto domain reads it; `DataJson` carries
the `makeCoin` parse outcome (`none` models unparseable data). -/
structure StoredState where
  StoredAt : Int
  Id : String
  SchemaId : String
  DataJson : Option ZetoCoin
  deriving DecidableEq, Repr

/-- `pb.StateRef`. -/
structure StateRef where
  SchemaId : String
  Id : String
  deriving DecidableEq, Repr

def MAX_INPUT_COUNT : Nat := 10

/-- The quadruple `prepareInputs` returns on success.  The Go code
computes the remainder with `total.Sub(total, expectedTotal)`, which
mutates `total` in place, so the returned total and remainder are the
same value. -/
structure PrepResult where
  coins : List ZetoCoin
  stateRefs : List StateRef
  total : Nat
  remainder : Nat
  deriving DecidableEq, Repr

/-- The step outcome of the inner page loop: either the function
returns (success or error), or it falls through to the next query with
the updated accumulators. -/
inductive PageStep
  | done (res : Except String PrepResult)
  | next (lastStateTimestamp : Int) (total : Nat) (coins : List ZetoCoin)
      (stateRefs : List StateRef)
  deriving Repr

/-- The inner `for _, state := range states` loop of `prepareInputs`:
accumulate each coin, return once the expected total is covered, fail
once `MAX_INPUT_COUNT` refs are collected, fail on an unparseable
coin. -/
def scanPageStates (expectedTotal : Nat) :
    List StoredState → Int → Nat → List ZetoCoin → List StateRef → PageStep
  | [], lastTs, total, coins, refs => .next lastTs total coins refs
  | state :: rest, _lastTs, total, coins, refs =>
    let lastTs := state.StoredAt
    match state.DataJson with
    | none => .done (.error ("coin " ++ state.Id ++ " is invalid"))
    | some coin =>
      let total := total + coin.Amount
      let refs := refs ++ [{ SchemaId := state.SchemaId, Id := state.Id }]
      let coins := coins ++ [coin]
      if expectedTotal ≤ total then
        .done (.ok { coins := coins, stateRefs := refs
                     total := total - expectedTotal, remainder := total - expectedTotal })
      else if MAX_INPUT_COUNT ≤ refs.length then
        .done (.error "could not find enough coins to fulfill the transfer amount total")
      else
        scanPageStates expectedTotal rest lastTs total coins refs

/-- The outer query loop of `prepareInputs`, with explicit fuel (the
Go loop is unbounded; the fuel bounds the executions examined, and the
claims quantify over it).  The oracle `query` stands for the
`FindAvailableStates` callback applied to the query built for a given
last-state timestamp (limit 10, sorted by `.created`, owner = sender,
`.created > lastStateTimestamp` when positive). -/
def prepareInputsLoop (query : Int → List StoredState) (expectedTotal : Nat) :
    Nat → Int → Nat → List ZetoCoin → List StateRef → Except String PrepResult
  | 0, _, _, _, _ => .error "fuel exhausted"
  | fuel+1, lastTs, total, coins, refs =>
    let states := query lastTs
    if states.isEmpty then
      .error ("insufficient funds (available=" ++ Nat.repr total ++ ")")
    else
      match scanPageStates expectedTotal states lastTs total coins refs with
      | .done res => res
      | .next lastTs total coins refs =>
        prepareInputsLoop query expectedTotal fuel lastTs total coins refs

/-- `Zeto.prepareInputs`: the expected total is the sum of the
transfer parameter amounts; the accumulators start empty with a zero
last-state timestamp. -/
def prepareInputs (query : Int → List StoredState) (params : List Nat)
    (fuel : Nat) : Except String PrepResult :=
  let expectedTotal := params.foldl (· + ·) 0
  prepareInputsLoop query expectedTotal fuel 0 0 [] []

end Zeto

/-! ## Theorems -/

open Filters in
/-- C10: for a bool-kind indexed label field, projecting a JSON value
to its SQL value returns NULL for JSON null, the value itself for JSON
true/false (as `int64` for the int64-backed field), and for every JSON
string returns true / `int64(1)` exactly when the string equals
`"true"` ignoring case and false / `int64(0)` for any other string —
strings like `"yes"` or `"1"` silently evaluate to false rather than
raising an error; an error is returned only for JSON values that are
neither strings nor booleans (nor null). -/
theorem c10_bool_field_sqlvalue :
    (Int64BoolField.SQLValue .null = .ok .null ∧ BooleanField.SQLValue .null = .ok .null)
    ∧ (∀ b : Bool,
        Int64BoolField.SQLValue (.bool b) = .ok (.int64 (if b then 1 else 0))
        ∧ BooleanField.SQLValue (.bool b) = .ok (.bool b))
    ∧ (∀ s : String,
        Int64BoolField.SQLValue (.str s) = .ok (.int64 (if equalFold s "true" then 1 else 0))
        ∧ BooleanField.SQLValue (.str s) = .ok (.bool (equalFold s "true")))
    ∧ (Int64BoolField.SQLValue (.str "yes") = .ok (.int64 0)
        ∧ Int64BoolField.SQLValue (.str "1") = .ok (.int64 0)
        ∧ BooleanField.SQLValue (.str "yes") = .ok (.bool false)
        ∧ Int64BoolField.SQLValue (.str "TRUE") = .ok (.int64 1)
        ∧ BooleanField.SQLValue (.str "True") = .ok (.bool true))
    ∧ (∀ j : JSONValue,
        (Int64BoolField.SQLValue j = .error .valueInvalidForBool
          ∨ BooleanField.SQLValue j = .error .valueInvalidForBool)
        ↔ (j ≠ .null ∧ (∀ b, j ≠ .bool b) ∧ (∀ s, j ≠ .str s))) := by
  refine ⟨⟨rfl, rfl⟩, ?_, ?_, ?_, ?_⟩
  · intro b
    cases b <;> exact ⟨rfl, rfl⟩
  · intro s
    by_cases h : equalFold s "true" = true <;>
      simp [Int64BoolField.SQLValue, BooleanField.SQLValue, RawJSON.IsNil, h]
  · exact ⟨rfl, rfl, rfl, rfl, rfl⟩
  · intro j
    cases j <;> simp [Int64BoolField.SQLValue, BooleanField.SQLValue, RawJSON.IsNil]
    · rename_i b
      cases b <;> simp
    · rename_i s
      split <;> simp

namespace Statemgr

@[simp] theorem initUnFlushed_closed (dc : DomainContext) :
    (initUnFlushed dc).closed = dc.closed := by
  unfold initUnFlushed; cases dc.unFlushed <;> rfl

@[simp] theorem initUnFlushed_flushing (dc : DomainContext) :
    (initUnFlushed dc).flushing = dc.flushing := by
  unfold initUnFlushed; cases dc.unFlushed <;> rfl

@[simp] theorem initUnFlushed_creatingStates (dc : DomainContext) :
    (initUnFlushed dc).creatingStates = dc.creatingStates := by
  unfold initUnFlushed; cases dc.unFlushed <;> rfl

@[simp] theorem initUnFlushed_txLocks (dc : DomainContext) :
    (initUnFlushed dc).txLocks = dc.txLocks := by
  unfold initUnFlushed; cases dc.unFlushed <;> rfl

@[simp] theorem initUnFlushed_id (dc : DomainContext) :
    (initUnFlushed dc).id = dc.id := by
  unfold initUnFlushed; cases dc.unFlushed <;> rfl

@[simp] theorem initUnFlushed_getD (dc : DomainContext) :
    (initUnFlushed dc).unFlushed.getD .empty = dc.unFlushed.getD .empty := by
  unfold initUnFlushed; cases h : dc.unFlushed <;> simp [h]

theorem checkReset_ok (dc : DomainContext) (hclosed : dc.closed = false)
    (hflush : dc.flushFailed = false) :
    checkResetInitUnFlushed dc = .ok (initUnFlushed dc) := by
  unfold checkResetInitUnFlushed
  cases hf : dc.flushing with
  | none => simp [hclosed, hf]
  | some f =>
    have hflush2 : (f.flushed && f.flushResult.isSome) = false := by
      unfold DomainContext.flushFailed at hflush
      rw [hf] at hflush
      exact hflush
    simp [hclosed, hf, hflush2]

theorem checkReset_closed (dc : DomainContext) (hclosed : dc.closed = true) :
    checkResetInitUnFlushed dc = .error .domainContextClosed := by
  unfold checkResetInitUnFlushed
  simp [hclosed]

theorem checkReset_flushFailed (dc : DomainContext) (hclosed : dc.closed = false)
    (hflush : dc.flushFailed = true) :
    checkResetInitUnFlushed dc = .error .flushFailedDomainReset := by
  unfold checkResetInitUnFlushed
  cases hf : dc.flushing with
  | none =>
    unfold DomainContext.flushFailed at hflush
    rw [hf] at hflush
    exact absurd hflush (by simp)
  | some f =>
    have hflush2 : (f.flushed && f.flushResult.isSome) = true := by
      unfold DomainContext.flushFailed at hflush
      rw [hf] at hflush
      exact hflush
    simp [hclosed, hf, hflush2]

end Statemgr

open Statemgr in
/-- C4 counterexample: a failing `UpsertNullifiers` call does mutate
the context — the nullifier whose state is not in the creating map has
already been appended to the unflushed write operation when the error
returns, so "no context state is mutated" is false as stated. -/
theorem c4_upsert_nullifiers_counterexample :
    (UpsertNullifiers dcC4 [nC4]).2 = some (.nullifierStateNotInCtx "s1" 1)
    ∧ (UpsertNullifiers dcC4 [nC4]).1.unFlushed
        = some { states := [], stateNullifiers := [nC4] }
    ∧ (UpsertNullifiers dcC4 [nC4]).1 ≠ dcC4 := by
  refine ⟨by decide, by decide, by decide⟩

namespace Statemgr

/-- The `UpsertNullifiers` validation loop against the claim-side
in-order rule: the unflushed overlay is untouched, success is exactly
batch validity, a successful loop assigns the whole batch, and a
failing loop stops at the first invalid element with the passing
prefix assigned. -/
theorem upsertLoop_char :
    ∀ (ns : List StateNullifier) (dc : DomainContext),
      (upsertNullifiersLoop dc ns).1.unFlushed = dc.unFlushed
      ∧ ((upsertNullifiersLoop dc ns).2 = none
          ↔ validNullifierBatch dc.creatingStates ns = true)
      ∧ ((upsertNullifiersLoop dc ns).2 = none →
          (upsertNullifiersLoop dc ns).1.creatingStates
            = assignAllNullifiers dc.creatingStates ns)
      ∧ (∀ e, (upsertNullifiersLoop dc ns).2 = some e →
          ∃ pre n suf, ns = pre ++ n :: suf
            ∧ validNullifierBatch dc.creatingStates pre = true
            ∧ nullifierFailsAt (assignAllNullifiers dc.creatingStates pre) n = some e
            ∧ (upsertNullifiersLoop dc ns).1.creatingStates
                = assignAllNullifiers dc.creatingStates pre) := by
  intro ns
  induction ns with
  | nil =>
    intro dc
    refine ⟨rfl, by simp [upsertNullifiersLoop, validNullifierBatch],
      fun _ => rfl, ?_⟩
    intro e he
    simp [upsertNullifiersLoop] at he
  | cons n rest ih =>
    intro dc
    cases hm : mapGet dc.creatingStates n.State with
    | none =>
      have hloop : upsertNullifiersLoop dc (n :: rest)
          = (dc, some (.nullifierStateNotInCtx n.State n.ID)) := by
        simp [upsertNullifiersLoop, hm]
      have hfail : nullifierFailsAt dc.creatingStates n
          = some (.nullifierStateNotInCtx n.State n.ID) := by
        simp [nullifierFailsAt, hm]
      refine ⟨by rw [hloop], ?_, ?_, ?_⟩
      · rw [hloop]
        simp [validNullifierBatch, hfail]
      · intro h
        rw [hloop] at h
        cases h
      · intro e he
        rw [hloop] at he
        refine ⟨[], n, rest, rfl, by simp [validNullifierBatch], ?_,
          by rw [hloop]; rfl⟩
        simpa [assignAllNullifiers, hfail] using he
    | some st =>
      cases hnl : st.Nullifier with
      | none =>
        have hloop : upsertNullifiersLoop dc (n :: rest)
            = upsertNullifiersLoop (assignNullifier dc st n) rest := by
          simp [upsertNullifiersLoop, hm, hnl]
        have hfail : nullifierFailsAt dc.creatingStates n = none := by
          simp [nullifierFailsAt, hm, hnl]
        have hkey : (assignNullifier dc st n).creatingStates
            = assignOneNullifier dc.creatingStates n := by
          simp [assignNullifier, assignOneNullifier, hm]
        obtain ⟨ih1, ih2, ih3, ih4⟩ := ih (assignNullifier dc st n)
        refine ⟨by rw [hloop, ih1]; rfl, ?_, ?_, ?_⟩
        · rw [hloop, ih2, hkey]
          simp [validNullifierBatch, hfail]
        · intro h
          rw [hloop] at h ⊢
          rw [ih3 h, hkey]
          simp only [assignAllNullifiers]
        · intro e he
          rw [hloop] at he
          obtain ⟨pre, n', suf, hsplit, hvalid, hfa, hmap⟩ := ih4 e he
          refine ⟨n :: pre, n', suf, by rw [hsplit]; rfl, ?_, ?_, ?_⟩
          · simp only [validNullifierBatch, hfail, Option.isNone_none, Bool.true_and]
            rw [← hkey]
            exact hvalid
          · simp only [assignAllNullifiers]
            rw [← hkey]
            exact hfa
          · rw [hloop, hmap, hkey]
            simp only [assignAllNullifiers]
      | some ex =>
        by_cases hid : ex.ID = n.ID
        · have hloop : upsertNullifiersLoop dc (n :: rest)
              = upsertNullifiersLoop (assignNullifier dc st n) rest := by
            simp [upsertNullifiersLoop, hm, hnl, hid]
          have hfail : nullifierFailsAt dc.creatingStates n = none := by
            simp [nullifierFailsAt, hm, hnl, hid]
          have hkey : (assignNullifier dc st n).creatingStates
              = assignOneNullifier dc.creatingStates n := by
            simp [assignNullifier, assignOneNullifier, hm]
          obtain ⟨ih1, ih2, ih3, ih4⟩ := ih (assignNullifier dc st n)
          refine ⟨by rw [hloop, ih1]; rfl, ?_, ?_, ?_⟩
          · rw [hloop, ih2, hkey]
            simp [validNullifierBatch, hfail]
          · intro h
            rw [hloop] at h ⊢
            rw [ih3 h, hkey]
            simp only [assignAllNullifiers]
          · intro e he
            rw [hloop] at he
            obtain ⟨pre, n', suf, hsplit, hvalid, hfa, hmap⟩ := ih4 e he
            refine ⟨n :: pre, n', suf, by rw [hsplit]; rfl, ?_, ?_, ?_⟩
            · simp only [validNullifierBatch, hfail, Option.isNone_none, Bool.true_and]
              rw [← hkey]
              exact hvalid
            · simp only [assignAllNullifiers]
              rw [← hkey]
              exact hfa
            · rw [hloop, hmap, hkey]
              simp only [assignAllNullifiers]
        · have hloop : upsertNullifiersLoop dc (n :: rest)
              = (dc, some (.nullifierConflict n.State ex.ID)) := by
            simp [upsertNullifiersLoop, hm, hnl, hid]
          have hfail : nullifierFailsAt dc.creatingStates n
              = some (.nullifierConflict n.State ex.ID) := by
            simp [nullifierFailsAt, hm, hnl, hid]
          refine ⟨by rw [hloop], ?_, ?_, ?_⟩
          · rw [hloop]
            simp [validNullifierBatch, hfail]
          · intro h
            rw [hloop] at h
            cases h
          · intro e he
            rw [hloop] at he
            refine ⟨[], n, rest, rfl, by simp [validNullifierBatch], ?_,
              by rw [hloop]; rfl⟩
            simpa [assignAllNullifiers, hfail] using he

end Statemgr

open Statemgr in
/-- C4 amended: on a live context `UpsertNullifiers` validates the
supplied nullifiers in order, assigning each passing nullifier onto
its creating-map state before checking the next; it fails exactly
when an element's state is missing from the creating map as updated
so far or a different nullifier (different id) already exists for it —
so at most one nullifier is ever associated with a state — and even a
failed call has mutated the context: all supplied nullifiers are in
the unflushed write operation and every nullifier preceding the
failing one has been assigned onto its creating state. -/
theorem c4_upsert_nullifiers (dc : DomainContext) (ns : List StateNullifier)
    (hclosed : dc.closed = false) (hflush : dc.flushFailed = false) :
    ((UpsertNullifiers dc ns).2 = none
        ↔ validNullifierBatch dc.creatingStates ns = true)
    ∧ (UpsertNullifiers dc ns).1.unFlushed
        = some { states := (dc.unFlushed.getD .empty).states,
                 stateNullifiers := (dc.unFlushed.getD .empty).stateNullifiers ++ ns }
    ∧ ((UpsertNullifiers dc ns).2 = none →
        (UpsertNullifiers dc ns).1.creatingStates
          = assignAllNullifiers dc.creatingStates ns)
    ∧ (∀ e, (UpsertNullifiers dc ns).2 = some e →
        ∃ pre n suf, ns = pre ++ n :: suf
          ∧ validNullifierBatch dc.creatingStates pre = true
          ∧ nullifierFailsAt (assignAllNullifiers dc.creatingStates pre) n = some e
          ∧ (UpsertNullifiers dc ns).1.creatingStates
              = assignAllNullifiers dc.creatingStates pre) := by
  have hcheck := checkReset_ok dc hclosed hflush
  have hred : UpsertNullifiers dc ns
      = upsertNullifiersLoop
          { initUnFlushed dc with
            unFlushed := some
              { states := (dc.unFlushed.getD .empty).states,
                stateNullifiers := (dc.unFlushed.getD .empty).stateNullifiers ++ ns } }
          ns := by
    simp only [UpsertNullifiers, hcheck, initUnFlushed_getD]
  set dc1 : DomainContext :=
    { initUnFlushed dc with
      unFlushed := some
        { states := (dc.unFlushed.getD .empty).states,
          stateNullifiers := (dc.unFlushed.getD .empty).stateNullifiers ++ ns } }
    with hdc1
  rw [hred]
  obtain ⟨h1, h2, h3, h4⟩ := upsertLoop_char ns dc1
  have hcrea : dc1.creatingStates = dc.creatingStates := by
    rw [hdc1]
    simp
  refine ⟨?_, ?_, ?_, ?_⟩
  · rw [← hcrea]
    exact h2
  · rw [h1, hdc1]
  · intro h
    rw [← hcrea]
    exact h3 h
  · intro e he
    obtain ⟨pre, n, suf, hsplit, hvalid, hfa, hmap⟩ := h4 e he
    refine ⟨pre, n, suf, hsplit, ?_, ?_, ?_⟩
    · rw [← hcrea]
      exact hvalid
    · rw [← hcrea]
      exact hfa
    · rw [← hcrea]
      exact hmap

namespace Statemgr

/-- The `ClearTransactions` lock walk as two filters: locks of the
given transactions are dropped, and the creating map loses the entries
named by dropped create locks. -/
theorem clearTransactionsLoop_eq (transactions : List TxID) :
    ∀ (locks : List StateLock) (m : List (StateID × State)) (out : List StateLock),
    locks.foldl (fun (acc : List (StateID × State) × List StateLock) lock =>
        if transactions.contains lock.Transaction then
          if lock.lockType == .create then (mapDel acc.1 lock.State, acc.2)
          else (acc.1, acc.2)
        else (acc.1, acc.2 ++ [lock])) (m, out)
    = (m.filter (fun e => !(locks.any (fun l => transactions.contains l.Transaction
          && l.lockType == .create && e.1 == l.State))),
       out ++ locks.filter (fun l => !(transactions.contains l.Transaction)))
  | [], m, out => by simp
  | l :: ls, m, out => by
    simp only [List.foldl_cons]
    by_cases hm : l.Transaction ∈ transactions
    · have hc : transactions.contains l.Transaction = true := by simpa using hm
      by_cases hcr : l.lockType = StateLockType.create
      · rw [if_pos hc, if_pos (by simpa using hcr),
          clearTransactionsLoop_eq transactions ls (mapDel m l.State) out]
        rw [Prod.mk.injEq]
        constructor
        · unfold mapDel
          rw [List.filter_filter]
          refine List.filter_congr ?_
          intro e _
          by_cases he : e.1 = l.State <;> simp [he, hm, hcr, Bool.and_comm, bne]
        · rw [List.filter_cons]
          simp [hm]
      · rw [if_pos hc, if_neg (by simpa using hcr),
          clearTransactionsLoop_eq transactions ls m out]
        rw [Prod.mk.injEq]
        constructor
        · refine List.filter_congr ?_
          intro e _
          simp [hm, hcr]
        · rw [List.filter_cons]
          simp [hm]
    · have hc : transactions.contains l.Transaction = false := by simpa using hm
      rw [if_neg (by simpa using hm), clearTransactionsLoop_eq transactions ls m (out ++ [l])]
      rw [Prod.mk.injEq]
      constructor
      · refine List.filter_congr ?_
        intro e _
        simp [hm]
      · rw [List.filter_cons]
        simp [hm]

/-- The per-upsert loop succeeds when every schema resolves, producing
the materialised states, a create lock per `CreatedBy`, and the
created states to make available. -/
theorem processUpserts_eq (se : SchemaID → Bool) :
    ∀ (l : List StateUpsert), (∀ u ∈ l, se u.SchemaID = true) →
    processUpserts se l = .ok (l.map upsertState,
      (l.filter (fun u => u.CreatedBy.isSome)).map (fun u =>
        { lockType := .create, Transaction := u.CreatedBy.getD 0, State := u.ID }),
      (l.filter (fun u => u.CreatedBy.isSome)).map upsertState)
  | [], _ => rfl
  | ns :: rest, h => by
    have hs : se ns.SchemaID = true := h ns (by simp)
    have ih := processUpserts_eq se rest (fun u hu => h u (by simp [hu]))
    unfold processUpserts
    rw [hs, ih]
    cases hc : ns.CreatedBy with
    | some t => simp [List.filter_cons, hc, upsertState]
    | none => simp [List.filter_cons, hc]

/-- `addStateLocks` succeeds and appends in order when every lock has
a transaction, a state id, and (for create locks) a creating-map
entry. -/
theorem addStateLocks_ok :
    ∀ (dc : DomainContext) (locks : List StateLock),
    (∀ l ∈ locks, l.Transaction ≠ 0 ∧ l.State.isEmpty = false
      ∧ (l.lockType = .create → (mapGet dc.creatingStates l.State).isSome = true)) →
    addStateLocks dc locks = ({ dc with txLocks := dc.txLocks ++ locks }, none)
  | dc, [], _ => by simp [addStateLocks]
  | dc, l :: ls, h => by
    obtain ⟨h1, h2, h3⟩ := h l (by simp)
    have hcond : (l.lockType == StateLockType.create
        && (mapGet dc.creatingStates l.State).isNone) = false := by
      by_cases hcr : l.lockType = StateLockType.create
      · have hsome := h3 hcr
        simp [hcr, Option.isNone_iff_eq_none, Option.isSome_iff_exists] at hsome ⊢
        obtain ⟨x, hx⟩ := hsome
        simp [hx]
      · simp [hcr]
    have ih := addStateLocks_ok { dc with txLocks := dc.txLocks ++ [l] } ls
      (fun x hx => h x (by simp [hx]))
    unfold addStateLocks
    rw [if_neg (by simpa using h1), if_neg (by simp [h2]), if_neg (by simp [hcond]), ih]
    simp

end Statemgr

open Statemgr in
/-- C5 counterexample: clearing the transaction of a create lock
deletes the creating-map entry but does not drop the unflushed overlay
entry for that state — the write operation still carries it, so the
claim's "the unflushed overlay entry for that state is also dropped"
is false as stated. -/
theorem c5_clear_transactions_counterexample :
    (ClearTransactions dcC5 [7]).txLocks = []
    ∧ (ClearTransactions dcC5 [7]).creatingStates = []
    ∧ (ClearTransactions dcC5 [7]).unFlushed = some { states := [stC5], stateNullifiers := [] }
    ∧ (ClearTransactions dcC5 [7]).unFlushed ≠ some { states := [], stateNullifiers := [] } := by
  refine ⟨by decide, by decide, by decide, by decide⟩

open Statemgr in
/-- C5 amended: `ClearTransactions` removes every lock whose
transaction id is in the cleared set, leaving other locks in place; for
each removed create lock the creating-map entry of its state is
dropped — but the unflushed overlay entry is not (the write operation,
the flush slot and the closed flag are untouched). -/
theorem c5_clear_transactions (dc : DomainContext) (transactions : List TxID) :
    (ClearTransactions dc transactions).txLocks
      = dc.txLocks.filter (fun l => !(transactions.contains l.Transaction))
    ∧ (ClearTransactions dc transactions).creatingStates
      = dc.creatingStates.filter (fun e =>
          !(dc.txLocks.any (fun l => transactions.contains l.Transaction
              && l.lockType == .create && e.1 == l.State)))
    ∧ (ClearTransactions dc transactions).unFlushed = dc.unFlushed
    ∧ (ClearTransactions dc transactions).flushing = dc.flushing
    ∧ (ClearTransactions dc transactions).closed = dc.closed := by
  unfold ClearTransactions
  rw [clearTransactionsLoop_eq transactions dc.txLocks dc.creatingStates []]
  simp

open Statemgr in
/-- C4 witness: a two-element batch on `dcC4b` failing at its second
element — the call errors, yet both nullifiers are in the unflushed
write operation and the passing first element has been assigned onto
its creating-map state. -/
theorem c4_upsert_nullifiers_witness :
    (UpsertNullifiers dcC4b [n1C4, n2C4]).1.unFlushed
      = some { states := (dcC4b.unFlushed.getD .empty).states,
               stateNullifiers := (dcC4b.unFlushed.getD .empty).stateNullifiers
                 ++ [n1C4, n2C4] }
    ∧ ∃ pre n suf, [n1C4, n2C4] = pre ++ n :: suf
        ∧ validNullifierBatch dcC4b.creatingStates pre = true
        ∧ nullifierFailsAt (assignAllNullifiers dcC4b.creatingStates pre) n
            = some (.nullifierStateNotInCtx "s2" 2)
        ∧ (UpsertNullifiers dcC4b [n1C4, n2C4]).1.creatingStates
            = assignAllNullifiers dcC4b.creatingStates pre :=
  ⟨(c4_upsert_nullifiers dcC4b [n1C4, n2C4] (by decide) (by decide)).2.1,
   (c4_upsert_nullifiers dcC4b [n1C4, n2C4] (by decide) (by decide)).2.2.2
     (.nullifierStateNotInCtx "s2" 2) (by decide)⟩

namespace Statemgr

theorem mapGet_isSome_iff (m : List (StateID × State)) (k : StateID) :
    (mapGet m k).isSome = true ↔ ∃ e ∈ m, e.1 = k := by
  unfold mapGet
  simp [List.find?_isSome]

theorem mapGet_mapPut_self_isSome (m : List (StateID × State)) (k : StateID) (v : State) :
    (mapGet (mapPut m k v) k).isSome = true := by
  rw [mapGet_isSome_iff]
  unfold mapPut
  by_cases h : (m.find? (fun e => e.1 == k)).isSome
  · simp only [h, if_true]
    obtain ⟨e, he, hek⟩ := List.find?_isSome.mp h
    refine ⟨(k, v), ?_, rfl⟩
    exact List.mem_map.mpr ⟨e, he, by simp [hek]⟩
  · simp only [h, if_false]
    exact ⟨(k, v), by simp, rfl⟩

theorem mapGet_mapPut_isSome_mono (m : List (StateID × State)) (k k' : StateID) (v : State)
    (h : (mapGet m k).isSome = true) : (mapGet (mapPut m k' v) k).isSome = true := by
  rw [mapGet_isSome_iff] at h ⊢
  obtain ⟨e, he, hek⟩ := h
  unfold mapPut
  by_cases hex : (m.find? (fun e => e.1 == k')).isSome
  · simp only [hex, if_true]
    by_cases he' : e.1 = k'
    · refine ⟨(k', v), ?_, he' ▸ hek⟩
      exact List.mem_map.mpr ⟨e, he, by simp [he']⟩
    · refine ⟨e, ?_, hek⟩
      exact List.mem_map.mpr ⟨e, he, by simp [he']⟩
  · simp only [hex, if_false]
    exact ⟨e, by simp [he], hek⟩

theorem mapGet_foldl_mapPut_isSome (vs : List State) :
    ∀ (m : List (StateID × State)) (k : StateID),
    ((∃ s ∈ vs, s.ID = k) ∨ (mapGet m k).isSome = true) →
    (mapGet (vs.foldl (fun m s => mapPut m s.ID s) m) k).isSome = true := by
  induction vs with
  | nil =>
    intro m k h
    rcases h with ⟨s, hs, _⟩ | h
    · cases hs
    · simpa using h
  | cons s vs ih =>
    intro m k h
    rw [List.foldl_cons]
    rcases h with ⟨t, ht, hk⟩ | h
    · rcases List.mem_cons.mp ht with rfl | ht'
      · exact ih _ k (.inr (hk ▸ mapGet_mapPut_self_isSome m t.ID t))
      · exact ih _ k (.inl ⟨t, ht', hk⟩)
    · exact ih _ k (.inr (mapGet_mapPut_isSome_mono m k s.ID s h))

theorem foldl_creating_update (vs : List State) :
    ∀ (dc : DomainContext),
    vs.foldl (fun dc s => { dc with creatingStates := mapPut dc.creatingStates s.ID s }) dc
    = { dc with creatingStates := vs.foldl (fun m s => mapPut m s.ID s) dc.creatingStates } := by
  induction vs with
  | nil => intro dc; simp
  | cons s vs ih => intro dc; rw [List.foldl_cons, List.foldl_cons, ih]

theorem filter_map_upsertState_singleton (u : StateUpsert) :
    ∀ (l : List StateUpsert), (l.map (·.ID)).Nodup → u ∈ l →
    (l.map upsertState).filter (fun s => s.ID == u.ID) = [upsertState u] := by
  intro l
  induction l with
  | nil => intro _ h; cases h
  | cons v rest ih =>
    intro hnd hmem
    rw [List.map_cons] at hnd ⊢
    have hnd' := List.Nodup.of_cons hnd
    rw [List.filter_cons]
    rcases List.mem_cons.mp hmem with rfl | hrest
    · simp only [upsertState, beq_self_eq_true, if_pos]
      congr 1
      rw [List.filter_eq_nil_iff]
      intro s hs
      obtain ⟨w, hw, rfl⟩ := List.mem_map.mp hs
      have : w.ID ≠ u.ID := by
        intro hww
        exact (List.nodup_cons.mp hnd).1 (hww ▸ List.mem_map_of_mem (·.ID) hw)
      simpa [upsertState] using this
    · have hne : v.ID ≠ u.ID := by
        intro hvv
        exact (List.nodup_cons.mp hnd).1 (hvv ▸ List.mem_map_of_mem (·.ID) hrest)
      rw [if_neg (by simpa [upsertState] using hne)]
      exact ih hnd' hrest

end Statemgr

namespace Statemgr

/-- The create-lock built by `UpsertStates` for an upsert carrying
`CreatedBy`. -/
def upsertLock (u : StateUpsert) : StateLock :=
  { lockType := .create, Transaction := u.CreatedBy.getD 0, State := u.ID }

/-- `UpsertStates` in closed form on a live context whose upserts all
resolve their schemas and carry valid create information. -/
theorem UpsertStates_eq (se : SchemaID → Bool) (dc : DomainContext)
    (upserts : List StateUpsert)
    (hclosed : dc.closed = false) (hflush : dc.flushFailed = false)
    (hschema : ∀ u ∈ upserts, se u.SchemaID = true)
    (hvalid : ∀ u ∈ upserts, u.CreatedBy ≠ some 0
      ∧ (u.CreatedBy.isSome = true → u.ID.isEmpty = false)) :
    UpsertStates se dc upserts
      = ({ initUnFlushed dc with
            unFlushed := some { (initUnFlushed dc).unFlushed.getD .empty with
              states := ((initUnFlushed dc).unFlushed.getD .empty).states.filter
                  (fun existing => !((upserts.map upsertState).any
                    (fun s => existing.ID == s.ID)))
                ++ upserts.map upsertState },
            creatingStates := ((upserts.filter (fun u => u.CreatedBy.isSome)).map
                upsertState).foldl (fun m s => mapPut m s.ID s) dc.creatingStates,
            txLocks := dc.txLocks
              ++ (upserts.filter (fun u => u.CreatedBy.isSome)).map upsertLock },
          .ok (upserts.map upsertState)) := by
  have hcheck := checkReset_ok dc hclosed hflush
  unfold UpsertStates
  rw [processUpserts_eq se upserts hschema, hcheck]
  show (let uf := (initUnFlushed dc).unFlushed.getD .empty
        let deDupped := uf.states.filter (fun existing =>
          !((upserts.map upsertState).any (fun s => existing.ID == s.ID)))
        let dc2 := { initUnFlushed dc with
          unFlushed := some { uf with states := deDupped ++ upserts.map upsertState } }
        let dc3 := ((upserts.filter (fun u => u.CreatedBy.isSome)).map upsertState).foldl
          (fun dc s => { dc with creatingStates := mapPut dc.creatingStates s.ID s }) dc2
        match addStateLocks dc3 ((upserts.filter (fun u => u.CreatedBy.isSome)).map
            (fun u => { lockType := .create, Transaction := u.CreatedBy.getD 0,
                        State := u.ID })) with
        | (dc4, some e) => (dc4, Except.error e)
        | (dc4, none) => (dc4, Except.ok (upserts.map upsertState))) = _
  simp only []
  rw [foldl_creating_update]
  have hcond : ∀ l ∈ (upserts.filter (fun u => u.CreatedBy.isSome)).map
      (fun u => ({ lockType := .create, Transaction := u.CreatedBy.getD 0,
                   State := u.ID } : StateLock)),
      l.Transaction ≠ 0 ∧ l.State.isEmpty = false
      ∧ (l.lockType = .create →
          (mapGet (((upserts.filter (fun u => u.CreatedBy.isSome)).map upsertState).foldl
            (fun m s => mapPut m s.ID s)
            ({ initUnFlushed dc with
                unFlushed := some { (initUnFlushed dc).unFlushed.getD .empty with
                  states := ((initUnFlushed dc).unFlushed.getD .empty).states.filter
                      (fun existing => !((upserts.map upsertState).any
                        (fun s => existing.ID == s.ID)))
                    ++ upserts.map upsertState } } : DomainContext).creatingStates)
            l.State).isSome = true) := by
    intro l hl
    obtain ⟨u, hu, rfl⟩ := List.mem_map.mp hl
    have humem : u ∈ upserts := (List.mem_filter.mp hu).1
    have husome : u.CreatedBy.isSome = true := (List.mem_filter.mp hu).2
    obtain ⟨hnz, hne⟩ := hvalid u humem
    refine ⟨?_, hne husome, ?_⟩
    · cases hcb : u.CreatedBy with
      | none => rw [hcb] at husome; simp at husome
      | some t =>
        rw [hcb] at hnz
        simpa [hcb] using fun h0 => hnz (by rw [h0])
    · intro _
      refine mapGet_foldl_mapPut_isSome _ _ _ (.inl ⟨upsertState u, ?_, rfl⟩)
      exact List.mem_map_of_mem upsertState hu
  rw [addStateLocks_ok _ _ hcond]
  simp [upsertLock]

end Statemgr

open Statemgr in
/-- C7: on a live context, upserting states (with resolvable schemas,
distinct ids in the batch and well-formed create information) succeeds
and replaces earlier unflushed entries of the same ids — last write
wins: the unflushed write list is the old list purged of the batch's
ids followed by the new writes, it keeps at most one entry per state
id when it did before, and the entry for each upserted id is exactly
the new one, so flushing never produces a duplicate row for a repeated
upsert. -/
theorem c7_upsert_states_last_write_wins (se : SchemaID → Bool) (dc : DomainContext)
    (upserts : List StateUpsert)
    (hclosed : dc.closed = false) (hflush : dc.flushFailed = false)
    (hschema : ∀ u ∈ upserts, se u.SchemaID = true)
    (hids : (upserts.map (·.ID)).Nodup)
    (hvalid : ∀ u ∈ upserts, u.CreatedBy ≠ some 0
      ∧ (u.CreatedBy.isSome = true → u.ID.isEmpty = false)) :
    (UpsertStates se dc upserts).2 = .ok (upserts.map upsertState)
    ∧ ((UpsertStates se dc upserts).1.unFlushed.getD .empty).states
        = (dc.unFlushed.getD .empty).states.filter
            (fun existing => !((upserts.map upsertState).any (fun s => existing.ID == s.ID)))
          ++ upserts.map upsertState
    ∧ (((dc.unFlushed.getD .empty).states.map (·.ID)).Nodup →
        (((UpsertStates se dc upserts).1.unFlushed.getD .empty).states.map (·.ID)).Nodup)
    ∧ (∀ u ∈ upserts,
        ((UpsertStates se dc upserts).1.unFlushed.getD .empty).states.filter
          (fun s => s.ID == u.ID) = [upsertState u]) := by
  rw [UpsertStates_eq se dc upserts hclosed hflush hschema hvalid]
  have hstates : ((({ initUnFlushed dc with
      unFlushed := some { (initUnFlushed dc).unFlushed.getD .empty with
        states := ((initUnFlushed dc).unFlushed.getD .empty).states.filter
            (fun existing => !((upserts.map upsertState).any (fun s => existing.ID == s.ID)))
          ++ upserts.map upsertState },
      creatingStates := ((upserts.filter (fun u => u.CreatedBy.isSome)).map
          upsertState).foldl (fun m s => mapPut m s.ID s) dc.creatingStates,
      txLocks := dc.txLocks
        ++ (upserts.filter (fun u => u.CreatedBy.isSome)).map upsertLock } :
        DomainContext).unFlushed.getD .empty).states)
      = (dc.unFlushed.getD .empty).states.filter
          (fun existing => !((upserts.map upsertState).any (fun s => existing.ID == s.ID)))
        ++ upserts.map upsertState := by
    simp
  refine ⟨rfl, hstates, ?_, ?_⟩
  · intro hnd
    rw [hstates, List.map_append, List.nodup_append]
    refine ⟨?_, ?_, ?_⟩
    · exact hnd.sublist (List.Sublist.map _ (List.filter_sublist _))
    · simpa [List.map_map, Function.comp, upsertState] using hids
    · intro x hxA hxB
      obtain ⟨e, heA, rfl⟩ := List.mem_map.mp hxA
      obtain ⟨s, hsB, hsx⟩ := List.mem_map.mp hxB
      have hpred := List.of_mem_filter heA
      rw [Bool.not_eq_eq_eq_not, Bool.not_true, List.any_eq_false] at hpred
      exact absurd (by simpa using hsx.symm) (hpred s hsB)
  · intro u hu
    rw [hstates, List.filter_append]
    have hnilA : ((dc.unFlushed.getD .empty).states.filter
        (fun existing => !((upserts.map upsertState).any (fun s => existing.ID == s.ID)))).filter
          (fun s => s.ID == u.ID) = [] := by
      rw [List.filter_eq_nil_iff]
      intro e he
      have hpred := List.of_mem_filter he
      rw [Bool.not_eq_eq_eq_not, Bool.not_true, List.any_eq_false] at hpred
      have := hpred (upsertState u) (List.mem_map_of_mem upsertState hu)
      simpa [upsertState] using this
    rw [hnilA, filter_map_upsertState_singleton u upserts hids hu, List.nil_append]

open Statemgr in
/-- C7 witness: the theorem evaluated on `dcC7`, whose unflushed list
already holds an entry for `"s1"`: after the repeated upsert the list
holds exactly the new entry for that id. -/
theorem c7_upsert_states_last_write_wins_witness :
    ((UpsertStates (fun _ => true) dcC7 [upsertC7]).1.unFlushed.getD .empty).states.filter
      (fun s => s.ID == upsertC7.ID) = [upsertState upsertC7] :=
  (c7_upsert_states_last_write_wins (fun _ => true) dcC7 [upsertC7]
    (by decide) (by decide) (by intro u _; rfl) (by decide)
    (by intro u hu; rw [List.mem_singleton] at hu; subst hu; exact ⟨by decide, by decide⟩)).2.2.2
    upsertC7 (List.mem_singleton.mpr rfl)

open Statemgr in
/-- C8 counterexample: after `Close`, `ClearTransactions` does not
fail with a "closed" error — it has no error path at all, and it still
mutates the closed context (the spend lock is removed), so "every
subsequent operation on that context fails with a 'closed' error" is
false as stated. -/
theorem c8_close_counterexample :
    ((Close ssC8 dcC8).2).closed = true
    ∧ ClearTransactions (Close ssC8 dcC8).2 [5]
        = { (Close ssC8 dcC8).2 with txLocks := [] }
    ∧ (ClearTransactions (Close ssC8 dcC8).2 [5]).txLocks ≠ (Close ssC8 dcC8).2.txLocks := by
  refine ⟨by decide, by decide, by decide⟩

open Statemgr in
/-- C8 amended: after `Close`, the context is removed from the state
manager's registry (`GetDomainContext` no longer returns it), and
every subsequent operation that checks the context state —
`UpsertStates` (when its upserts resolve their schemas),
`UpsertNullifiers`, `AddStateLocks`, `FindAvailableStates`,
`FindAvailableNullifiers` — fails with the "closed" error and leaves
the context unchanged; `ClearTransactions` (and `Reset`) perform no
such check and still operate on the closed context. -/
theorem c8_close (ss : StateManager) (dc : DomainContext) (se : SchemaID → Bool)
    (upserts : List StateUpsert) (nulls : List StateNullifier) (locks : List StateLock)
    (store : DurableStore) (schemaId : SchemaID) (q : QueryJSON)
    (hschema : ∀ u ∈ upserts, se u.SchemaID = true) :
    GetDomainContext (Close ss dc).1 dc.id = none
    ∧ UpsertStates se (Close ss dc).2 upserts = ((Close ss dc).2, .error .domainContextClosed)
    ∧ UpsertNullifiers (Close ss dc).2 nulls = ((Close ss dc).2, some .domainContextClosed)
    ∧ AddStateLocks (Close ss dc).2 locks = ((Close ss dc).2, some .domainContextClosed)
    ∧ FindAvailableStates (Close ss dc).2 store schemaId q = .error .domainContextClosed
    ∧ FindAvailableNullifiers (Close ss dc).2 store schemaId q
        = .error .domainContextClosed := by
  have hclosed : ((Close ss dc).2).closed = true := rfl
  have hcheck := checkReset_closed (Close ss dc).2 hclosed
  refine ⟨?_, ?_, ?_, ?_, ?_, ?_⟩
  · rw [GetDomainContext]
    have : ((Close ss dc).1).domainContexts.find? (fun e => e.1 == dc.id) = none := by
      rw [List.find?_eq_none]
      intro e he
      have := List.of_mem_filter he
      simpa using this
    simp [this]
  · simp only [UpsertStates, processUpserts_eq se upserts hschema, hcheck]
  · simp only [UpsertNullifiers, hcheck]
  · simp only [AddStateLocks, hcheck]
  · simp only [FindAvailableStates, getUnFlushedStates, hcheck]
    rfl
  · simp only [FindAvailableNullifiers, getUnFlushedStates, hcheck]
    rfl

open Statemgr in
/-- C8 witness: the amended theorem evaluated on the closed context
`dcC8`: the registry lookup misses and a mutation fails closed. -/
theorem c8_close_witness :
    GetDomainContext (Close ssC8 dcC8).1 dcC8.id = none
    ∧ AddStateLocks (Close ssC8 dcC8).2 [] = ((Close ssC8 dcC8).2, some .domainContextClosed) := by
  have h := c8_close ssC8 dcC8 (fun _ => true) [] [] []
    { states := [], spentIds := [] } 1
    { matchesQ := fun _ => true, sortKey := fun d => d, Limit := none }
    (by intro u hu; cases hu)
  exact ⟨h.1, h.2.2.2.1⟩


open Statemgr in
/-- C6: after a flush initiated by `InitiateFlush` completes with an
error, every mutating or querying operation on the context —
`UpsertStates` (when its upserts resolve their schemas),
`UpsertNullifiers`, `AddStateLocks`, `FindAvailableStates`,
`FindAvailableNullifiers` — returns the "must reset" error and leaves
the context unchanged (so the condition persists) until `Reset`;
`Reset` discards the overlay write operations, the creating map and
all locks, after which the context is usable again with empty
state. -/
theorem c6_flush_failure_requires_reset (dc : DomainContext) (w : WriteOperation)
    (e : String) (se : SchemaID → Bool) (upserts : List StateUpsert)
    (nulls : List StateNullifier) (locks : List StateLock)
    (store : DurableStore) (schemaId : SchemaID) (q : QueryJSON)
    (hclosed : dc.closed = false) (hw : dc.unFlushed = some w)
    (hschema : ∀ u ∈ upserts, se u.SchemaID = true) :
    (flushCompletes (InitiateFlush dc) (some e)).flushFailed = true
    ∧ UpsertStates se (flushCompletes (InitiateFlush dc) (some e)) upserts
        = (flushCompletes (InitiateFlush dc) (some e), .error .flushFailedDomainReset)
    ∧ UpsertNullifiers (flushCompletes (InitiateFlush dc) (some e)) nulls
        = (flushCompletes (InitiateFlush dc) (some e), some .flushFailedDomainReset)
    ∧ AddStateLocks (flushCompletes (InitiateFlush dc) (some e)) locks
        = (flushCompletes (InitiateFlush dc) (some e), some .flushFailedDomainReset)
    ∧ FindAvailableStates (flushCompletes (InitiateFlush dc) (some e)) store schemaId q
        = .error .flushFailedDomainReset
    ∧ FindAvailableNullifiers (flushCompletes (InitiateFlush dc) (some e)) store schemaId q
        = .error .flushFailedDomainReset
    ∧ (Reset (flushCompletes (InitiateFlush dc) (some e))).creatingStates = []
    ∧ (Reset (flushCompletes (InitiateFlush dc) (some e))).txLocks = []
    ∧ (Reset (flushCompletes (InitiateFlush dc) (some e))).unFlushed = none
    ∧ (Reset (flushCompletes (InitiateFlush dc) (some e))).flushing = none
    ∧ AddStateLocks (Reset (flushCompletes (InitiateFlush dc) (some e))) []
        = ({ Reset (flushCompletes (InitiateFlush dc) (some e)) with
              unFlushed := some .empty }, none) := by
  set dcf := flushCompletes (InitiateFlush dc) (some e) with hdcf
  have hflushing : dcf.flushing = some { writeOp := w, flushed := true, flushResult := some e } := by
    simp [hdcf, flushCompletes, InitiateFlush, hw]
  have hclosed2 : dcf.closed = false := by
    simp [hdcf, flushCompletes, InitiateFlush, hclosed]
  have hff : dcf.flushFailed = true := by
    simp [DomainContext.flushFailed, hflushing]
  have hcheck := checkReset_flushFailed dcf hclosed2 hff
  have hreset_closed : (Reset dcf).closed = false := hclosed2
  have hcheck2 := checkReset_ok (Reset dcf) hreset_closed rfl
  refine ⟨hff, ?_, ?_, ?_, ?_, ?_, rfl, rfl, rfl, rfl, ?_⟩
  · simp only [UpsertStates, processUpserts_eq se upserts hschema, hcheck]
  · simp only [UpsertNullifiers, hcheck]
  · simp only [AddStateLocks, hcheck]
  · simp only [FindAvailableStates, getUnFlushedStates, hcheck]
    rfl
  · simp only [FindAvailableNullifiers, getUnFlushedStates, hcheck]
    rfl
  · simp only [AddStateLocks, hcheck2]
    rfl

open Statemgr in
/-- C6 witness: the theorem evaluated on the live empty context
`dcC6`: after a failed flush `AddStateLocks` fails "must reset", and
after `Reset` it succeeds on the emptied context. -/
theorem c6_flush_failure_requires_reset_witness :
    AddStateLocks (flushCompletes (InitiateFlush dcC6) (some "boom")) []
      = (flushCompletes (InitiateFlush dcC6) (some "boom"), some .flushFailedDomainReset)
    ∧ AddStateLocks (Reset (flushCompletes (InitiateFlush dcC6) (some "boom"))) []
      = ({ Reset (flushCompletes (InitiateFlush dcC6) (some "boom")) with
            unFlushed := some .empty }, none) := by
  have h := c6_flush_failure_requires_reset dcC6 .empty "boom" (fun _ => true) [] [] []
    storeC6 1 { matchesQ := fun _ => true, sortKey := fun d => d, Limit := none }
    (by decide) (by decide) (by intro u hu; cases hu)
  exact ⟨h.2.2.2.1, h.2.2.2.2.2.2.2.2.2.2⟩

namespace Txmgr

theorem mem_zip_left {α β : Type} :
    ∀ (txs : List α) (ids : List β), txs.length ≤ ids.length →
    ∀ tx ∈ txs, ∃ i, (tx, i) ∈ txs.zip ids
  | [], _, _, tx, h => by cases h
  | _ :: _, [], h, tx, _ => by simp at h
  | t :: ts, i :: is, h, tx, hmem => by
    rcases List.mem_cons.mp hmem with rfl | hmem'
    · exact ⟨i, by simp⟩
    · obtain ⟨j, hj⟩ := mem_zip_left ts is (by simpa using h) tx hmem'
      exact ⟨j, by simp [hj]⟩

/-- `checkIdempotencyKeys` falls back to the original error when no
row carries a submitted key. -/
theorem checkIdempotencyKeys_fallback (origErr : TxError) (txis : List TransactionInput)
    (db : TransactionsTable)
    (h : ∀ r ∈ db, r.IdempotencyKey.isSome = true →
      ¬∃ tx ∈ txis, tx.IdempotencyKey ≠ "" ∧ r.IdempotencyKey = some tx.IdempotencyKey) :
    checkIdempotencyKeys origErr txis db = origErr := by
  unfold checkIdempotencyKeys
  by_cases hkeys : ((txis.filter (fun tx => !tx.IdempotencyKey.isEmpty)).map
      (·.IdempotencyKey)).isEmpty
  · simp [hkeys]
  · have hfilter : db.filter (fun e => e.IdempotencyKey.isSome
        && ((txis.filter (fun tx => !tx.IdempotencyKey.isEmpty)).map
            (·.IdempotencyKey)).contains (e.IdempotencyKey.getD "")) = [] := by
      rw [List.filter_eq_nil_iff]
      intro r hr
      by_cases hsome : r.IdempotencyKey.isSome
      · obtain ⟨s, hs⟩ := Option.isSome_iff_exists.mp hsome
        intro hcontr
        rw [hs] at hcontr
        simp only [Option.getD_some, Bool.and_eq_true, List.elem_iff,
          decide_eq_true_eq, List.mem_map, List.mem_filter, List.contains] at hcontr
        obtain ⟨tx, ⟨htx, hne⟩, hkey⟩ := hcontr.2
        refine h r hr hsome ⟨tx, htx, ?_, ?_⟩
        · intro hEq
          rw [hEq] at hne
          simp [String.isEmpty] at hne
        · rw [hs, hkey]
      · simp [hsome]
    simp only [hkeys, if_false, Bool.not_eq_true', hfilter]
    simp

end Txmgr

open Txmgr in
/-- C3: when a submitted transaction carries an idempotency key that
collides with an existing `transactions` row, no new transaction is
created — the enclosing database transaction rolls back (the table
reverts) — and the post-rollback check queries for the key and
replaces the error with one reporting the conflicting existing
transaction ids, falling back to the original error only when no
existing row is found; a resubmit with the same idempotency key
therefore maps to the same existing transaction id. -/
theorem c3_idempotency_key_conflict :
    (∀ (db : TransactionsTable) (txs : List TransactionInput) (ids : List TxID)
        (k : String) (t : TxID),
      k ≠ "" → (∃ tx ∈ txs, tx.IdempotencyKey = k) →
      txs.length ≤ ids.length →
      ({ ID := t, IdempotencyKey := some k } : PersistedTransaction) ∈ db →
      (processNewTransactions db txs ids).1 = db
      ∧ ∃ info, (processNewTransactions db txs ids).2 = .error (.idempotencyKeyClash info)
          ∧ info ≠ []
          ∧ ∀ p ∈ info,
              ({ ID := p.2, IdempotencyKey := some p.1 } : PersistedTransaction) ∈ db
              ∧ ∃ tx ∈ txs, tx.IdempotencyKey = p.1)
    ∧ (∀ (origErr : TxError) (txis : List TransactionInput) (db : TransactionsTable),
        (∀ r ∈ db, r.IdempotencyKey.isSome = true →
          ¬∃ tx ∈ txis, tx.IdempotencyKey ≠ "" ∧ r.IdempotencyKey = some tx.IdempotencyKey) →
        checkIdempotencyKeys origErr txis db = origErr)
    ∧ (∀ (db : TransactionsTable) (k : String) (t t2 : TxID),
        k ≠ "" → (∀ r ∈ db, r.IdempotencyKey ≠ some k) →
        processNewTransactions db [{ IdempotencyKey := k }] [t]
            = (db ++ [{ ID := t, IdempotencyKey := some k }], .ok [t])
        ∧ processNewTransactions (db ++ [{ ID := t, IdempotencyKey := some k }])
            [{ IdempotencyKey := k }] [t2]
            = (db ++ [{ ID := t, IdempotencyKey := some k }],
               .error (.idempotencyKeyClash [(k, t)]))) := by
  refine ⟨?_, checkIdempotencyKeys_fallback, ?_⟩
  · intro db txs ids k t hk hex hlen hmem
    obtain ⟨tx, htx, hkey⟩ := hex
    have hkecF : k.isEmpty = false := by
      cases hke : k.isEmpty
      · rfl
      · exact absurd (by simpa [String.isEmpty_iff] using hke) hk
    obtain ⟨i, hzip⟩ := mem_zip_left txs ids hlen tx htx
    have hrowmem : ({ ID := i, IdempotencyKey := some k } : PersistedTransaction)
        ∈ (txs.zip ids).map (fun p =>
            ({ ID := p.2, IdempotencyKey := notEmptyOrNull p.1.IdempotencyKey }
              : PersistedTransaction)) := by
      refine List.mem_map.mpr ⟨(tx, i), hzip, ?_⟩
      simp [notEmptyOrNull, hkey, hkecF]
    have hdbany : db.any (fun e => e.IdempotencyKey == some k) = true :=
      List.any_eq_true.mpr ⟨_, hmem, by simp⟩
    have hconf : insertTransactions db ((txs.zip ids).map (fun p =>
        ({ ID := p.2, IdempotencyKey := notEmptyOrNull p.1.IdempotencyKey }
          : PersistedTransaction))) = .error .insertConflict := by
      unfold insertTransactions
      rw [if_pos]
      rw [List.any_eq_true]
      exact ⟨_, hrowmem, by simp [hdbany]⟩
    unfold processNewTransactions
    simp only [hconf]
    refine ⟨trivial, ?_⟩
    unfold checkIdempotencyKeys
    set keys := (txs.filter (fun tx => !tx.IdempotencyKey.isEmpty)).map
      (·.IdempotencyKey) with hkeysdef
    set flt := db.filter (fun e => e.IdempotencyKey.isSome
      && keys.contains (e.IdempotencyKey.getD "")) with hfltdef
    have hkmem : k ∈ keys :=
      List.mem_map.mpr ⟨tx, List.mem_filter.mpr ⟨htx, by simp [hkey, hkecF]⟩, hkey⟩
    have hkeysne : keys.isEmpty = false := by
      cases hkeq : keys with
      | nil => rw [hkeq] at hkmem; cases hkmem
      | cons a as => rfl
    have hfmem : ({ ID := t, IdempotencyKey := some k } : PersistedTransaction) ∈ flt := by
      rw [hfltdef]
      exact List.mem_filter.mpr ⟨hmem, by simp [List.contains, List.elem_iff, hkmem]⟩
    have hexist_ne : flt.take keys.length ≠ [] := by
      cases hfl : flt with
      | nil => rw [hfl] at hfmem; cases hfmem
      | cons a as =>
        cases hn : keys.length with
        | zero =>
          rw [List.length_eq_zero] at hn
          rw [hn] at hkmem; cases hkmem
        | succ m => simp
    have htakeempty : (flt.take keys.length).isEmpty = false := by
      cases hte : flt.take keys.length with
      | nil => exact absurd hte hexist_ne
      | cons a as => rfl
    rw [if_pos (by rw [hkeysne]; rfl), if_pos (by rw [htakeempty]; rfl)]
    refine ⟨_, rfl, ?_, ?_⟩
    · intro hmapnil
      rw [List.map_eq_nil_iff] at hmapnil
      exact hexist_ne hmapnil
    · intro p hp
      obtain ⟨e, he, rfl⟩ := List.mem_map.mp hp
      have heflt : e ∈ flt := List.take_subset _ _ he
      rw [hfltdef] at heflt
      obtain ⟨hedb, hpred⟩ := List.mem_filter.mp heflt
      rw [Bool.and_eq_true] at hpred
      obtain ⟨s, hs⟩ := Option.isSome_iff_exists.mp hpred.1
      have hsmem : s ∈ keys := by
        have := hpred.2
        rw [hs] at this
        simpa [List.contains, List.elem_iff] using this
      constructor
      · cases e with
        | mk eid ekey =>
          simp only at hs
          rw [hs]
          simpa [hs] using hedb
      · obtain ⟨tx2, htx2, hkey2⟩ := List.mem_map.mp (hkeysdef ▸ hsmem)
        exact ⟨tx2, (List.mem_filter.mp htx2).1, by rw [hkey2, hs]; rfl⟩
  · intro db k t t2 hk hnone
    have hkecF : k.isEmpty = false := by
      cases hke : k.isEmpty
      · rfl
      · exact absurd (by simpa [String.isEmpty_iff] using hke) hk
    have hdbany : db.any (fun e => e.IdempotencyKey == some k) = false :=
      List.any_eq_false.mpr (fun e he => by simpa using hnone e he)
    constructor
    · unfold processNewTransactions insertTransactions
      simp [notEmptyOrNull, hkecF, hdbany]
    · have hdb2any : (db ++ [({ ID := t, IdempotencyKey := some k } : PersistedTransaction)]).any
          (fun e => e.IdempotencyKey == some k) = true :=
        List.any_eq_true.mpr
          ⟨({ ID := t, IdempotencyKey := some k } : PersistedTransaction), by simp, by simp⟩
      have hfltdb : db.filter
          (fun e => e.IdempotencyKey.isSome && decide (e.IdempotencyKey.getD "" = k)) = [] := by
        rw [List.filter_eq_nil_iff]
        intro e he
        cases hek : e.IdempotencyKey with
        | none => simp [hek]
        | some s =>
          by_cases hsk : s = k
          · exact absurd (hek.trans (by rw [hsk])) (hnone e he)
          · simp [hek, hsk]
      unfold processNewTransactions insertTransactions checkIdempotencyKeys
      simp [notEmptyOrNull, hkecF, hdb2any, List.filter_append, hfltdb]

open Txmgr in
/-- C3 witness: a fresh submit with key `"k1"` creates one row; the
resubmit rolls back and reports the clash with the existing id. -/
theorem c3_idempotency_key_conflict_witness :
    processNewTransactions ([] : TransactionsTable) [{ IdempotencyKey := "k1" }] [1]
        = ([{ ID := 1, IdempotencyKey := some "k1" }], .ok [1])
    ∧ processNewTransactions [{ ID := 1, IdempotencyKey := some "k1" }]
        [{ IdempotencyKey := "k1" }] [2]
        = ([{ ID := 1, IdempotencyKey := some "k1" }],
           .error (.idempotencyKeyClash [("k1", 1)])) := by
  have h := c3_idempotency_key_conflict.2.2 [] "k1" 1 2 (by decide)
    (by intro r hr; cases hr)
  simpa using h

namespace Statemgr

@[simp] theorem initUnFlushed_idem (dc : DomainContext) :
    initUnFlushed (initUnFlushed dc) = initUnFlushed dc := by
  unfold initUnFlushed
  cases h : dc.unFlushed <;> simp [h]

@[simp] theorem spendingLocked_init (dc : DomainContext) :
    (initUnFlushed dc).spendingLocked = dc.spendingLocked := by
  unfold DomainContext.spendingLocked
  rw [initUnFlushed_txLocks]

@[simp] theorem spendLockedOn_init (dc : DomainContext) (x : StateID) :
    (initUnFlushed dc).spendLockedOn x = dc.spendLockedOn x := by
  unfold DomainContext.spendLockedOn
  rw [initUnFlushed_txLocks]

theorem overlayMatches_init (dc : DomainContext) (schemaId : SchemaID)
    (db : List State) (q : QueryJSON) (rn : Bool) :
    overlayMatches (initUnFlushed dc) schemaId db q rn = overlayMatches dc schemaId db q rn := by
  unfold overlayMatches
  rw [initUnFlushed_creatingStates]
  refine List.filter_congr ?_
  intro s _
  rw [spendLockedOn_init]

theorem applyLocks_init (dc : DomainContext) (l : List State) :
    applyLocks (initUnFlushed dc) l = applyLocks dc l := by
  unfold applyLocks
  rw [initUnFlushed_txLocks]

theorem getUnFlushedStates_ok (dc : DomainContext) (hclosed : dc.closed = false)
    (hflush : dc.flushFailed = false) :
    ∃ nulls, getUnFlushedStates dc = .ok (dc.spendingLocked, [], nulls, initUnFlushed dc) := by
  refine ⟨((initUnFlushed dc).unFlushed.map (·.stateNullifiers)).getD []
    ++ ((initUnFlushed dc).flushing.map (·.writeOp.stateNullifiers)).getD [], ?_⟩
  have h1 : getUnFlushedStates dc = .ok ((initUnFlushed dc).spendingLocked, [],
      ((initUnFlushed dc).unFlushed.map (·.stateNullifiers)).getD []
        ++ ((initUnFlushed dc).flushing.map (·.writeOp.stateNullifiers)).getD [],
      initUnFlushed dc) := by
    unfold getUnFlushedStates
    rw [checkReset_ok dc hclosed hflush]
    rfl
  rw [h1, spendingLocked_init]

theorem contains_cons_eq (a x : StateID) (as : List StateID) :
    (a :: as).contains x = ((x == a) || as.contains x) := by
  show List.elem x (a :: as) = _
  rw [List.elem_cons]
  cases h : x == a <;> simp [h]

theorem contains_eq_false (l : List StateID) (x : StateID) :
    l.contains x = false ↔ x ∉ l := by
  rw [Bool.eq_false_iff]
  exact not_congr List.elem_iff

theorem contains_map_eq_any (db : List State) (x : StateID) :
    (db.map (·.ID)).contains x = db.any (fun d => d.ID == x) := by
  rw [Bool.eq_iff_iff]
  simp only [List.contains, List.elem_iff, List.any_eq_true, List.mem_map, beq_iff_eq]

theorem dedup_go_nodup :
    ∀ (l : List State), ((l.map (·.ID)).Nodup) → ∀ (seen : List StateID),
    dedupById.go seen l = l.filter (fun s => !(seen.contains s.ID))
  | [], _, seen => rfl
  | s :: rest, hnd, seen => by
    rw [List.map_cons, List.nodup_cons] at hnd
    unfold dedupById.go
    by_cases hmem : seen.contains s.ID = true
    · have hmem' : s.ID ∈ seen := by simpa using hmem
      rw [if_pos hmem, List.filter_cons, dedup_go_nodup rest hnd.2 seen]
      simp [hmem']
    · have hmem' : s.ID ∉ seen := by simpa using hmem
      rw [if_neg (by simpa using hmem), List.filter_cons,
        dedup_go_nodup rest hnd.2 (s.ID :: seen)]
      have hfc : rest.filter (fun t => !((s.ID :: seen).contains t.ID))
          = rest.filter (fun t => !(seen.contains t.ID)) := by
        refine List.filter_congr ?_
        intro t ht
        have htne : t.ID ≠ s.ID := by
          intro hEq
          exact hnd.1 (hEq ▸ List.mem_map_of_mem (·.ID) ht)
        rw [Bool.eq_iff_iff]
        simp [List.contains, List.elem_iff, htne]
      rw [hfc]
      simp [hmem']

theorem dedup_go_append :
    ∀ (db : List State), ((db.map (·.ID)).Nodup) →
    ∀ (seen : List StateID) (o : List State), ((o.map (·.ID)).Nodup) →
    (∀ s ∈ db, seen.contains s.ID = false) →
    dedupById.go seen (db ++ o)
      = db ++ o.filter (fun s => !(seen.contains s.ID)
          && !(db.any (fun d => d.ID == s.ID)))
  | [], _, seen, o, hond, _ => by
    rw [List.nil_append, dedup_go_nodup o hond seen]
    refine congrArg (fun z => ([] : List State) ++ z) ?_
    refine List.filter_congr ?_
    intro s _
    simp
  | d :: db, hnd, seen, o, hond, hseen => by
    rw [List.map_cons, List.nodup_cons] at hnd
    rw [List.cons_append]
    unfold dedupById.go
    rw [if_neg (by simpa using hseen d (by simp))]
    rw [dedup_go_append db hnd.2 (d.ID :: seen) o hond (by
      intro s hs
      have hne : s.ID ≠ d.ID := by
        intro hEq
        exact hnd.1 (hEq ▸ List.mem_map_of_mem (·.ID) hs)
      have h2 : s.ID ∉ seen := by
        rw [← contains_eq_false]
        exact hseen s (by simp [hs])
      rw [contains_cons_eq, Bool.or_eq_false_iff]
      exact ⟨beq_eq_false_iff_ne.mpr hne, (contains_eq_false seen s.ID).mpr h2⟩)]
    rw [List.cons_append]
    have hfc : o.filter (fun s => !((d.ID :: seen).contains s.ID)
          && !(db.any (fun e => e.ID == s.ID)))
        = o.filter (fun s => !(seen.contains s.ID)
          && !((d :: db).any (fun e => e.ID == s.ID))) := by
      refine List.filter_congr ?_
      intro s _
      rw [contains_cons_eq, List.any_cons]
      rw [show (s.ID == d.ID) = (d.ID == s.ID) from Bool.beq_comm]
      cases d.ID == s.ID <;> cases seen.contains s.ID
        <;> cases db.any (fun e => e.ID == s.ID) <;> rfl
    rw [hfc]

@[simp] theorem initUnFlushed_flushFailed (dc : DomainContext) :
    (initUnFlushed dc).flushFailed = dc.flushFailed := by
  unfold DomainContext.flushFailed
  rw [initUnFlushed_flushing]

theorem sortStates_sorted (q : QueryJSON) (l : List State) :
    List.Sorted (fun a b => q.sortKey a.data ≤ q.sortKey b.data) (sortStates q l) := by
  haveI h1 : IsTotal State (fun a b => q.sortKey a.data ≤ q.sortKey b.data) :=
    ⟨fun a b => Nat.le_total _ _⟩
  haveI h2 : IsTrans State (fun a b => q.sortKey a.data ≤ q.sortKey b.data) :=
    ⟨fun a b c hab hbc => Nat.le_trans hab hbc⟩
  exact List.sorted_insertionSort _ l

theorem sortStates_perm (q : QueryJSON) (l : List State) : List.Perm (sortStates q l) l :=
  List.perm_insertionSort _ l

theorem sortStates_of_sorted (q : QueryJSON) (l : List State)
    (h : List.Sorted (fun a b => q.sortKey a.data ≤ q.sortKey b.data) l) :
    sortStates q l = l :=
  h.insertionSort_eq

theorem takeLimit_sorted (q : QueryJSON) (lim : Option Nat) (l : List State)
    (h : List.Sorted (fun a b => q.sortKey a.data ≤ q.sortKey b.data) l) :
    List.Sorted (fun a b => q.sortKey a.data ≤ q.sortKey b.data) (takeLimit lim l) := by
  cases lim with
  | none => exact h
  | some n => exact h.sublist (List.take_sublist n l)

theorem takeLimit_idem (lim : Option Nat) (l : List State) :
    takeLimit lim (takeLimit lim l) = takeLimit lim l := by
  cases lim with
  | none => rfl
  | some n => simp [takeLimit, List.take_take]

theorem findStates_fixed (store : DurableStore) (schemaId : SchemaID) (q : QueryJSON)
    (excl : List StateID) :
    takeLimit q.Limit (sortStates q (findStates store schemaId q excl))
      = findStates store schemaId q excl := by
  unfold findStates
  rw [sortStates_of_sorted _ _ (takeLimit_sorted q _ _ (sortStates_sorted q _))]
  exact takeLimit_idem _ _

theorem findStates_ids_nodup (store : DurableStore) (schemaId : SchemaID) (q : QueryJSON)
    (excl : List StateID) (h : (store.states.map (·.ID)).Nodup) :
    ((findStates store schemaId q excl).map (·.ID)).Nodup := by
  unfold findStates
  have h1 : ((store.states.filter (fun s =>
      s.Schema == schemaId && !(store.spentIds.contains s.ID)
        && !(excl.contains s.ID) && q.matchesQ s.data)).map (·.ID)).Nodup :=
    h.sublist ((List.filter_sublist _).map _)
  have h2 : ((sortStates q (store.states.filter (fun s =>
      s.Schema == schemaId && !(store.spentIds.contains s.ID)
        && !(excl.contains s.ID) && q.matchesQ s.data))).map (·.ID)).Nodup :=
    (((sortStates_perm q _).map _).nodup_iff).mpr h1
  unfold takeLimit
  cases q.Limit with
  | none => exact h2
  | some n => exact h2.sublist ((List.take_sublist n _).map _)

theorem overlay_ids_nodup (dc : DomainContext)
    (hkeys : (dc.creatingStates.map (·.1)).Nodup)
    (hkv : ∀ e ∈ dc.creatingStates, e.1 = e.2.ID) (p : State → Bool) :
    (((dc.creatingStates.map (·.2)).filter p).map (·.ID)).Nodup := by
  have hm : (dc.creatingStates.map (fun e => e.2.ID)).Nodup := by
    have heq : dc.creatingStates.map (fun e => e.2.ID) = dc.creatingStates.map (·.1) :=
      List.map_congr_left (fun e he => (hkv e he).symm)
    rw [heq]
    exact hkeys
  have hmm : ((dc.creatingStates.map (·.2)).map (·.ID))
      = dc.creatingStates.map (fun e => e.2.ID) := by
    rw [List.map_map]
    rfl
  exact (hmm ▸ hm).sublist ((List.filter_sublist _).map _)

theorem dedupById_append (db o : List State)
    (hdb : (db.map (·.ID)).Nodup) (ho : (o.map (·.ID)).Nodup) :
    dedupById (db ++ o) = db ++ o.filter (fun s => !(db.any (fun d => d.ID == s.ID))) := by
  unfold dedupById
  rw [dedup_go_append db hdb [] o ho (fun s _ => rfl)]
  refine congrArg (fun z => db ++ z) ?_
  refine List.filter_congr ?_
  intro s _
  simp [List.contains]

end Statemgr

open Statemgr in
/-- C1 amended: on a live context (with well-formed creating map and
duplicate-free durable ids), `FindAvailableStates(S, Q)` returns
exactly: the durable query result — states of the schema matching the
query, excluding ids spent in the store or spend-locked in the context
— merged with the creating-map states of the schema that satisfy the
query and are not spend-locked in the context, de-duplicated by
state-id, re-sorted under the query's sort, truncated to the query's
limit; every returned state carries the set of locks currently held in
the context for it. -/
theorem c1_find_available_states (dc : DomainContext) (store : DurableStore)
    (schemaId : SchemaID) (q : QueryJSON)
    (hclosed : dc.closed = false) (hflush : dc.flushFailed = false)
    (hdurable : (store.states.map (·.ID)).Nodup)
    (hkeys : (dc.creatingStates.map (·.1)).Nodup)
    (hkv : ∀ e ∈ dc.creatingStates, e.1 = e.2.ID) :
    FindAvailableStates dc store schemaId q
      = .ok (findAvailableStatesAmendedClaim dc store schemaId q, initUnFlushed dc) := by
  obtain ⟨nulls, hget⟩ := getUnFlushedStates_ok dc hclosed hflush
  unfold FindAvailableStates
  rw [hget]
  show mergeUnFlushedApplyLocks (initUnFlushed dc) schemaId
      (findStates store schemaId q (dc.spendingLocked ++ [])) q false = _
  rw [List.append_nil]
  unfold mergeUnFlushedApplyLocks
  rw [checkReset_ok (initUnFlushed dc) (by simp [hclosed]) (by simp [hflush]),
    initUnFlushed_idem]
  show Except.ok (applyLocks (initUnFlushed dc)
      (if (overlayMatches (initUnFlushed dc) schemaId
            (findStates store schemaId q dc.spendingLocked) q false).isEmpty
        then findStates store schemaId q dc.spendingLocked
        else mergeInMemoryMatches (findStates store schemaId q dc.spendingLocked)
          (overlayMatches (initUnFlushed dc) schemaId
            (findStates store schemaId q dc.spendingLocked) q false) q),
      initUnFlushed dc) = _
  rw [overlayMatches_init, applyLocks_init]
  suffices h : (if (overlayMatches dc schemaId
        (findStates store schemaId q dc.spendingLocked) q false).isEmpty
      then findStates store schemaId q dc.spendingLocked
      else mergeInMemoryMatches (findStates store schemaId q dc.spendingLocked)
        (overlayMatches dc schemaId
          (findStates store schemaId q dc.spendingLocked) q false) q)
      = takeLimit q.Limit (sortStates q (dedupById
          (findStates store schemaId q dc.spendingLocked
            ++ (dc.creatingStates.map (·.2)).filter (fun s =>
              s.Schema == schemaId && !(dc.spendLockedOn s.ID) && q.matchesQ s.data)))) by
    rw [h]
    rfl
  have hm : overlayMatches dc schemaId (findStates store schemaId q dc.spendingLocked) q false
      = ((dc.creatingStates.map (·.2)).filter (fun s =>
          s.Schema == schemaId && !(dc.spendLockedOn s.ID) && q.matchesQ s.data)).filter
        (fun s => !((findStates store schemaId q dc.spendingLocked).any
          (fun d => d.ID == s.ID))) := by
    unfold overlayMatches
    rw [List.filter_filter]
    refine List.filter_congr (fun s _ => ?_)
    cases s.Schema == schemaId <;> cases dc.spendLockedOn s.ID
      <;> cases q.matchesQ s.data
      <;> cases (findStates store schemaId q dc.spendingLocked).any (fun d => d.ID == s.ID)
      <;> rfl
  have hdbnd : ((findStates store schemaId q dc.spendingLocked).map (·.ID)).Nodup :=
    findStates_ids_nodup store schemaId q dc.spendingLocked hdurable
  have hopnd : ((((dc.creatingStates.map (·.2)).filter (fun s =>
      s.Schema == schemaId && !(dc.spendLockedOn s.ID) && q.matchesQ s.data))).map
        (·.ID)).Nodup :=
    overlay_ids_nodup dc hkeys hkv _
  have hded := dedupById_append (findStates store schemaId q dc.spendingLocked)
    ((dc.creatingStates.map (·.2)).filter (fun s =>
      s.Schema == schemaId && !(dc.spendLockedOn s.ID) && q.matchesQ s.data))
    hdbnd hopnd
  by_cases hie : (overlayMatches dc schemaId
      (findStates store schemaId q dc.spendingLocked) q false).isEmpty = true
  · rw [if_pos hie]
    have hmnil : ((dc.creatingStates.map (·.2)).filter (fun s =>
        s.Schema == schemaId && !(dc.spendLockedOn s.ID) && q.matchesQ s.data)).filter
          (fun s => !((findStates store schemaId q dc.spendingLocked).any
            (fun d => d.ID == s.ID))) = [] := by
      rw [← hm]
      exact List.isEmpty_iff.mp hie
    rw [hded, hmnil, List.append_nil, findStates_fixed]
  · rw [if_neg hie]
    unfold mergeInMemoryMatches
    have hfm : (overlayMatches dc schemaId
        (findStates store schemaId q dc.spendingLocked) q false).filter
          (fun s => !(((findStates store schemaId q dc.spendingLocked).map
            (·.ID)).contains s.ID))
        = overlayMatches dc schemaId (findStates store schemaId q dc.spendingLocked)
            q false := by
      rw [List.filter_eq_self]
      intro s hs
      rw [hm] at hs
      have hD := List.of_mem_filter hs
      rw [contains_map_eq_any]
      exact hD
    show takeLimit q.Limit (sortStates q (findStates store schemaId q dc.spendingLocked
        ++ (overlayMatches dc schemaId (findStates store schemaId q dc.spendingLocked)
              q false).filter (fun s =>
            !(((findStates store schemaId q dc.spendingLocked).map
              (·.ID)).contains s.ID)))) = _
    rw [hfm, hm, hded]

open Statemgr in
/-- C1 counterexample: a creating-map state that is spend-locked in
the same context is excluded by the code but included by the claim's
formula (durable-matching minus spent/spend-locked, merged with the
creating-map states that satisfy the query): on `dcC1` the code
returns no states while the claim formula returns the spend-locked
creating state. -/
theorem c1_find_available_states_counterexample :
    FindAvailableStates dcC1 storeC1 1 qC1 = .ok ([], dcC1)
    ∧ findAvailableStatesClaim dcC1 storeC1 1 qC1
        = [{ ID := "s1", Schema := 1, data := 5, Nullifier := none,
             Locks := [{ lockType := .create, Transaction := 9, State := "s1" },
                       { lockType := .spend, Transaction := 9, State := "s1" }] }]
    ∧ ([] : List State)
        ≠ [{ ID := "s1", Schema := 1, data := 5, Nullifier := none,
             Locks := [{ lockType := .create, Transaction := 9, State := "s1" },
                       { lockType := .spend, Transaction := 9, State := "s1" }] }] := by
  refine ⟨rfl, rfl, by decide⟩

open Statemgr in
/-- C1 witness: the amended theorem evaluated on `dcC1` and the empty
durable store: the result is exactly the amended formula's value. -/
theorem c1_find_available_states_witness :
    FindAvailableStates dcC1 storeC1 1 qC1
      = .ok (findAvailableStatesAmendedClaim dcC1 storeC1 1 qC1, initUnFlushed dcC1) :=
  c1_find_available_states dcC1 storeC1 1 qC1 (by decide) (by decide) (by decide)
    (by decide) (by decide)

open Zeto in
/-- C9: assembling a Zeto transfer when the available-states query
returns no states for the sender fails with exactly the message
`"insufficient funds (available=0)"` and selects no input states (the
error return carries none); in general, whenever a query returns
empty, the reported available amount is the base-10 rendering of the
running total, and the running total is the sum of the amounts of the
coins accumulated so far. -/
theorem c9_zeto_insufficient_funds :
    (∀ (query : Int → List StoredState) (params : List Nat) (fuel : Nat),
      query 0 = [] →
      prepareInputs query params (fuel + 1) = .error "insufficient funds (available=0)")
    ∧ (∀ (query : Int → List StoredState) (expectedTotal fuel total : Nat)
        (lastTs : Int) (coins : List ZetoCoin) (refs : List StateRef),
      query lastTs = [] →
      prepareInputsLoop query expectedTotal (fuel + 1) lastTs total coins refs
        = .error ("insufficient funds (available=" ++ Nat.repr total ++ ")"))
    ∧ (∀ (expectedTotal : Nat) (states : List StoredState) (lastTs : Int)
        (total : Nat) (coins : List ZetoCoin) (refs : List StateRef)
        (lastTs2 : Int) (total2 : Nat) (coins2 : List ZetoCoin) (refs2 : List StateRef),
      scanPageStates expectedTotal states lastTs total coins refs
          = .next lastTs2 total2 coins2 refs2 →
      total = (coins.map (·.Amount)).sum →
      total2 = (coins2.map (·.Amount)).sum) := by
  refine ⟨?_, ?_, ?_⟩
  · intro query params fuel hq
    unfold prepareInputs prepareInputsLoop
    rw [hq]
    rfl
  · intro query expectedTotal fuel total lastTs coins refs hq
    unfold prepareInputsLoop
    rw [hq]
    rfl
  · intro expectedTotal states
    induction states with
    | nil =>
      intro lastTs total coins refs lastTs2 total2 coins2 refs2 hstep hsum
      unfold scanPageStates at hstep
      cases hstep
      exact hsum
    | cons state rest ih =>
      intro lastTs total coins refs lastTs2 total2 coins2 refs2 hstep hsum
      unfold scanPageStates at hstep
      cases hdj : state.DataJson with
      | none =>
        simp only [hdj] at hstep
        exact PageStep.noConfusion hstep
      | some coin =>
        simp only [hdj] at hstep
        by_cases hcov : expectedTotal ≤ total + coin.Amount
        · rw [if_pos hcov] at hstep
          exact PageStep.noConfusion hstep
        · rw [if_neg hcov] at hstep
          by_cases hmax : MAX_INPUT_COUNT
              ≤ (refs ++ [({ SchemaId := state.SchemaId, Id := state.Id } : StateRef)]).length
          · rw [if_pos hmax] at hstep
            exact PageStep.noConfusion hstep
          · rw [if_neg hmax] at hstep
            refine ih state.StoredAt (total + coin.Amount) (coins ++ [coin]) _
              lastTs2 total2 coins2 refs2 hstep ?_
            simp [hsum]

open Zeto in
/-- C9 witness: with an oracle that has no states for the sender, the
assembly reports exactly the zero-available message. -/
theorem c9_zeto_insufficient_funds_witness :
    prepareInputs (fun _ => ([] : List StoredState)) [10] 1
      = .error "insufficient funds (available=0)" :=
  c9_zeto_insufficient_funds.1 (fun _ => []) [10] 0 rfl

/-! ### C2: the reliable-message scan -/

namespace Transportmgr

/-- A list with no duplicates that is contained in another is no longer. -/
theorem length_le_of_subset_nodup {α : Type} [DecidableEq α] {l1 l2 : List α}
    (h1 : l1.Nodup) (h2 : l1 ⊆ l2) : l1.length ≤ l2.length :=
  calc l1.length = l1.toFinset.card := (List.toFinset_card_of_nodup h1).symm
    _ ≤ l2.toFinset.card := Finset.card_le_card (by
        intro a ha
        simp only [List.mem_toFinset] at ha ⊢
        exact h2 ha)
    _ ≤ l2.length := l2.toFinset_card_le

/-- `persistAcks` does not touch the message table. -/
theorem persistAcks_msgs (db : RMDb) (acks : List ReliableMessageAck) :
    (persistAcks db acks).msgs = db.msgs := rfl

/-- Acks after the `DoNothing` insert: the old rows, or an inserted one. -/
theorem hasAck_persistAcks (db : RMDb) (acks : List ReliableMessageAck) (x : Nat) :
    (persistAcks db acks).hasAck x
      = (db.hasAck x || acks.any (fun a => a.MessageID == x)) := by
  have h0 : (persistAcks db acks).hasAck x
      = (db.hasAck x
         || (acks.filter (fun a => !(db.hasAck a.MessageID))).any
              (fun a => a.MessageID == x)) := by
    simp only [persistAcks, RMDb.hasAck, List.any_append]
  rw [h0, List.any_filter]
  cases h : db.hasAck x with
  | true => simp
  | false =>
    simp only [Bool.false_or]
    have hp : ∀ a : ReliableMessageAck,
        (!(db.hasAck a.MessageID) && (a.MessageID == x)) = (a.MessageID == x) := by
      intro a
      cases hax : (a.MessageID == x) with
      | false => simp
      | true =>
        have hax' : a.MessageID = x := by simpa using hax
        rw [hax', h]
        simp
    simp only [hp]

/-- Existing acks survive `persistAcks`. -/
theorem hasAck_persistAcks_mono (db : RMDb) (acks : List ReliableMessageAck) (x : Nat)
    (h : db.hasAck x = true) : (persistAcks db acks).hasAck x = true := by
  rw [hasAck_persistAcks, h, Bool.true_or]

/-- `buildOk` says the builder returned a wire message. -/
theorem buildOk_iff (env : PeerEnv) (m : ReliableMessage) :
    buildOk env m = true ↔ buildOutcomeFor env m = .ok := by
  cases h : buildOutcomeFor env m <;> simp [buildOk, h]

/-- `buildPermErr` says the builder failed permanently. -/
theorem buildPermErr_iff (env : PeerEnv) (m : ReliableMessage) :
    buildPermErr env m = true ↔ ∃ e, buildOutcomeFor env m = .permanentError e := by
  cases h : buildOutcomeFor env m <;> simp [buildPermErr, h]

/-- Sent messages are a subset of what was handed to the send loop. -/
theorem sendPhase_subset (env : PeerEnv) :
    ∀ l : List ReliableMessage, ∀ x ∈ (sendPhase env l).1, x ∈ l := by
  intro l
  induction l with
  | nil => intro x hx; cases hx
  | cons m rest ih =>
    intro x hx
    simp only [sendPhase] at hx
    cases hs : env.sendOk m with
    | false => rw [hs] at hx; simp at hx
    | true =>
      rw [hs] at hx
      simp only [if_true] at hx
      rcases List.mem_cons.mp hx with h | h
      · exact h ▸ List.mem_cons_self _ _
      · exact List.mem_cons_of_mem _ (ih x h)

/-- When every handed message sends, the loop sends them all and succeeds. -/
theorem sendPhase_all (env : PeerEnv) :
    ∀ l : List ReliableMessage, (∀ x ∈ l, env.sendOk x = true) →
      sendPhase env l = (l, true) := by
  intro l
  induction l with
  | nil => intro _; rfl
  | cons m rest ih =>
    intro h
    have hm := h m (List.mem_cons_self _ _)
    simp only [sendPhase, hm, if_true, ih (fun x hx => h x (List.mem_cons_of_mem _ hx))]

/-- Members of a successful build phase's send list come from the page
and built successfully. -/
theorem buildPhase_mem_ok (env : PeerEnv) (hwm : Option Nat) :
    ∀ (page : List ReliableMessage) (pr : List ReliableMessage × List ReliableMessageAck),
      buildPhase env hwm page = some pr →
      ∀ x ∈ pr.1, x ∈ page ∧ buildOutcomeFor env x = .ok := by
  intro page
  induction page with
  | nil =>
    intro pr h x hx
    simp only [buildPhase, Option.some.injEq] at h
    rw [← h] at hx
    cases hx
  | cons rm rest ih =>
    intro pr h x hx
    simp only [buildPhase] at h
    cases he : eligibleForSend env hwm rm with
    | false =>
      rw [he] at h
      simp only [Bool.not_false, if_true] at h
      have := ih pr h x hx
      exact ⟨List.mem_cons_of_mem _ this.1, this.2⟩
    | true =>
      rw [he] at h
      simp only [Bool.not_true, Bool.false_eq_true, if_false] at h
      cases hb : buildOutcomeFor env rm with
      | retryableError => rw [hb] at h; cases h
      | permanentError e =>
        rw [hb] at h
        rcases Option.map_eq_some'.mp h with ⟨p, hp, hpr⟩
        rw [← hpr] at hx
        have := ih p hp x hx
        exact ⟨List.mem_cons_of_mem _ this.1, this.2⟩
      | ok =>
        rw [hb] at h
        rcases Option.map_eq_some'.mp h with ⟨p, hp, hpr⟩
        rw [← hpr] at hx
        rcases List.mem_cons.mp hx with hx | hx
        · exact ⟨hx ▸ List.mem_cons_self _ _, hx ▸ hb⟩
        · have := ih p hp x hx
          exact ⟨List.mem_cons_of_mem _ this.1, this.2⟩

/-- With no drain mark every row is eligible, so a build phase without
retryable errors splits the page into its wire messages and its error
acks, in page order. -/
theorem buildPhase_none (env : PeerEnv) (page : List ReliableMessage)
    (hnr : ∀ m ∈ page, buildOutcomeFor env m ≠ .retryableError) :
    buildPhase env none page
      = some (page.filter (fun m => buildOk env m),
              (page.filter (fun m => buildPermErr env m)).map (ackOf env)) := by
  induction page with
  | nil => rfl
  | cons rm rest ih =>
    have hrm := hnr rm (List.mem_cons_self _ _)
    have hrest : ∀ m ∈ rest, buildOutcomeFor env m ≠ .retryableError :=
      fun m hm => hnr m (List.mem_cons_of_mem _ hm)
    have hel : eligibleForSend env none rm = true := by
      simp [eligibleForSend]
    simp only [buildPhase, hel, Bool.not_true, Bool.false_eq_true, if_false]
    cases hb : buildOutcomeFor env rm with
    | retryableError => exact absurd hb hrm
    | ok =>
      rw [ih hrest]
      simp only [Option.map_some', Option.some.injEq, Prod.mk.injEq]
      constructor
      · simp [List.filter_cons, buildOk, hb]
      · simp [List.filter_cons, buildPermErr, hb]
    | permanentError e =>
      rw [ih hrest]
      simp only [Option.map_some', Option.some.injEq, Prod.mk.injEq]
      constructor
      · simp [List.filter_cons, buildOk, hb]
      · simp [List.filter_cons, buildPermErr, hb, ackOf]

/-- The page handler does not touch the message table. -/
theorem processPage_msgs (env : PeerEnv) (db : RMDb) (hwm : Option Nat)
    (page : List ReliableMessage) :
    (processReliableMsgPage env db hwm page).db.msgs = db.msgs := by
  unfold processReliableMsgPage
  cases buildPhase env hwm page with
  | none => rfl
  | some pr => rfl

/-- Existing acks survive the page handler. -/
theorem processPage_hasAck_mono (env : PeerEnv) (db : RMDb) (hwm : Option Nat)
    (page : List ReliableMessage) (i : Nat) (h : db.hasAck i = true) :
    (processReliableMsgPage env db hwm page).db.hasAck i = true := by
  unfold processReliableMsgPage
  cases buildPhase env hwm page with
  | none => exact h
  | some pr => exact hasAck_persistAcks_mono db pr.2 i h

/-- Whatever the page handler sent came from the page and built. -/
theorem processPage_sent (env : PeerEnv) (db : RMDb) (hwm : Option Nat)
    (page : List ReliableMessage) (x : ReliableMessage)
    (hx : x ∈ (processReliableMsgPage env db hwm page).sent) :
    x ∈ page ∧ buildOutcomeFor env x = .ok := by
  unfold processReliableMsgPage at hx
  cases hb : buildPhase env hwm page with
  | none => rw [hb] at hx; cases hx
  | some pr =>
    rw [hb] at hx
    exact buildPhase_mem_ok env hwm page pr hb x (sendPhase_subset env pr.1 x hx)

/-- With no retryable build errors and all sends succeeding, the page
handler acks the permanent failures and sends the built messages. -/
theorem processPage_none (env : PeerEnv) (db : RMDb) (page : List ReliableMessage)
    (hnr : ∀ m ∈ page, buildOutcomeFor env m ≠ .retryableError)
    (hsend : ∀ m ∈ page, buildOutcomeFor env m = .ok → env.sendOk m = true) :
    processReliableMsgPage env db none page
      = { db := persistAcks db
            ((page.filter (fun m => buildPermErr env m)).map (ackOf env)),
          sent := page.filter (fun m => buildOk env m), ok := true } := by
  unfold processReliableMsgPage
  rw [buildPhase_none env page hnr]
  have hall : sendPhase env (page.filter (fun m => buildOk env m))
      = (page.filter (fun m => buildOk env m), true) := by
    apply sendPhase_all
    intro x hx
    have hmem := List.mem_filter.mp hx
    exact hsend x hmem.1 ((buildOk_iff env x).mp hmem.2)
  simp only [hall]

/-- A page of a full scan: the unacked rows above the cursor, in
sequence order, up to the page size. -/
theorem scanPage_full (env : PeerEnv) (db : RMDb) (hwm : Option Nat)
    (lastPageEnd : Option Nat) :
    scanPage env db true hwm lastPageEnd
      = (sortBySeq (pendingRows db lastPageEnd)).take env.reliableMessagePageSize := by
  cases lastPageEnd <;> rfl

/-- Rows of any scan page are unacked rows of the message table. -/
theorem scanPage_mem (env : PeerEnv) (db : RMDb) (fullScan : Bool) (hwm : Option Nat)
    (lastPageEnd : Option Nat) (m : ReliableMessage)
    (hm : m ∈ scanPage env db fullScan hwm lastPageEnd) :
    m ∈ db.msgs ∧ db.hasAck m.ID = false := by
  unfold scanPage at hm
  have h1 := List.mem_of_mem_take hm
  have h2 := (List.perm_insertionSort _ _).mem_iff.mp h1
  have h3 := List.mem_filter.mp h2
  refine ⟨h3.1, ?_⟩
  have := (Bool.and_eq_true _ _).mp h3.2
  simpa using this.1

/-- The scan page is sorted by sequence. -/
theorem sortBySeq_sorted (l : List ReliableMessage) :
    (sortBySeq l).Sorted (fun a b => a.Sequence ≤ b.Sequence) := by
  haveI h1 : IsTotal ReliableMessage (fun a b => a.Sequence ≤ b.Sequence) :=
    ⟨fun a b => Nat.le_total a.Sequence b.Sequence⟩
  haveI h2 : IsTrans ReliableMessage (fun a b => a.Sequence ≤ b.Sequence) :=
    ⟨fun _ _ _ hab hbc => Nat.le_trans hab hbc⟩
  exact List.sorted_insertionSort _ l

/-- Sorting permutes. -/
theorem sortBySeq_perm (l : List ReliableMessage) : List.Perm (sortBySeq l) l :=
  List.perm_insertionSort _ l

/-- One unfolding of the page loop, with the page and its outcome
abstracted. -/
theorem scanLoop_succ_eq (env : PeerEnv) (st : ScanState) (fullScan : Bool)
    (fuel : Nat) (db : RMDb) (lastPageEnd : Option Nat) (total : Nat)
    (sent : List ReliableMessage) (page : List ReliableMessage) (res : PageOutcome)
    (hpage : page = scanPage env db fullScan st.lastDrainHWM lastPageEnd)
    (hres : res = processReliableMsgPage env db st.lastDrainHWM page) :
    scanLoop env st fullScan (fuel+1) db lastPageEnd total sent
      = if !res.ok then
          { db := res.db, scanState := st, sent := sent ++ res.sent, ok := false }
        else if page.length < env.reliableMessagePageSize then
          { db := res.db,
            scanState := finishScan env st fullScan
              (match page.getLast? with
               | some last => (some last.Sequence, total + page.length)
               | none => (lastPageEnd, total) : Option Nat × Nat).1
              (match page.getLast? with
               | some last => (some last.Sequence, total + page.length)
               | none => (lastPageEnd, total) : Option Nat × Nat).2,
            sent := sent ++ res.sent, ok := true }
        else
          scanLoop env st fullScan fuel res.db
            (match page.getLast? with
             | some last => (some last.Sequence, total + page.length)
             | none => (lastPageEnd, total) : Option Nat × Nat).1
            (match page.getLast? with
             | some last => (some last.Sequence, total + page.length)
             | none => (lastPageEnd, total) : Option Nat × Nat).2
            (sent ++ res.sent) := by
  subst hpage
  subst hres
  rfl

/-- Where a scan loop's sent messages come from: the already-sent list,
or an unacked stored row whose wire form built. -/
theorem scanLoop_sent_of (env : PeerEnv) (st : ScanState) (fullScan : Bool) :
    ∀ (fuel : Nat) (db : RMDb) (lastPageEnd : Option Nat) (total : Nat)
      (sent : List ReliableMessage) (x : ReliableMessage),
      x ∈ (scanLoop env st fullScan fuel db lastPageEnd total sent).sent →
      x ∈ sent
        ∨ (x ∈ db.msgs ∧ db.hasAck x.ID = false ∧ buildOutcomeFor env x = .ok) := by
  intro fuel
  induction fuel with
  | zero => intro db lpe total sent x hx; exact Or.inl hx
  | succ fuel ih =>
    intro db lpe total sent x hx
    set page := scanPage env db fullScan st.lastDrainHWM lpe with hpage
    set res := processReliableMsgPage env db st.lastDrainHWM page with hres
    rw [scanLoop_succ_eq env st fullScan fuel db lpe total sent page res hpage hres]
      at hx
    have hsplit : x ∈ sent ++ res.sent →
        x ∈ sent
          ∨ (x ∈ db.msgs ∧ db.hasAck x.ID = false ∧ buildOutcomeFor env x = .ok) := by
      intro h
      rcases List.mem_append.mp h with h | h
      · exact Or.inl h
      · have h1 := processPage_sent env db st.lastDrainHWM page x (by rw [← hres]; exact h)
        have h2 := scanPage_mem env db fullScan st.lastDrainHWM lpe x (by rw [← hpage]; exact h1.1)
        exact Or.inr ⟨h2.1, h2.2, h1.2⟩
    cases hok : res.ok with
    | false =>
      rw [hok] at hx
      simp only [Bool.not_false, if_true] at hx
      exact hsplit hx
    | true =>
      rw [hok] at hx
      simp only [Bool.not_true, Bool.false_eq_true, if_false] at hx
      by_cases hshort : page.length < env.reliableMessagePageSize
      · rw [if_pos hshort] at hx
        exact hsplit hx
      · rw [if_neg hshort] at hx
        rcases ih res.db _ _ _ x hx with h | ⟨hmem, hack, hokx⟩
        · exact hsplit h
        · refine Or.inr ⟨?_, ?_, hokx⟩
          · rw [hres, processPage_msgs] at hmem
            exact hmem
          · cases hdb : db.hasAck x.ID with
            | false => rfl
            | true =>
              have h3 := processPage_hasAck_mono env db st.lastDrainHWM page x.ID hdb
              rw [← hres] at h3
              rw [h3] at hack
              cases hack

/-- Membership in the pending rows. -/
theorem pendingRows_mem (db : RMDb) (lpe : Option Nat) (m : ReliableMessage) :
    m ∈ pendingRows db lpe
      ↔ m ∈ db.msgs ∧ db.hasAck m.ID = false ∧ condSeqB lpe m = true := by
  unfold pendingRows
  rw [List.mem_filter]
  constructor
  · rintro ⟨h1, h2⟩
    rcases (Bool.and_eq_true _ _).mp h2 with ⟨ha, hb⟩
    exact ⟨h1, by simpa using ha, hb⟩
  · rintro ⟨h1, h2, h3⟩
    exact ⟨h1, by simp [h2, h3]⟩

/-- In a list sorted by sequence, the last row has the largest
sequence. -/
theorem sorted_le_getLast :
    ∀ (l : List ReliableMessage),
      l.Sorted (fun a b => a.Sequence ≤ b.Sequence) →
      ∀ last, l.getLast? = some last → ∀ p ∈ l, p.Sequence ≤ last.Sequence := by
  intro l
  induction l with
  | nil => intro _ last hl; cases hl
  | cons a t ih =>
    intro hs last hl p hp
    cases t with
    | nil =>
      have ha : a = last := by simpa using hl
      have hpa : p = a := by simpa using hp
      rw [hpa, ha]
    | cons b t2 =>
      rw [List.getLast?_cons_cons] at hl
      rcases List.mem_cons.mp hp with hp | hp
      · have hlastmem : last ∈ b :: t2 := List.mem_of_mem_getLast? hl
        have := (List.sorted_cons.mp hs).1 last hlastmem
        rw [hp]
        exact this
      · exact ih (List.sorted_cons.mp hs).2 last hl p hp

/-- The full-scan page loop with no drain mark: it succeeds, keeps
what was already sent, keeps existing acks, sends every pending
buildable row and error-acks every pending permanently-failed row. -/
theorem scanLoop_complete (env : PeerEnv) (st : ScanState)
    (hhwm : st.lastDrainHWM = none) (hpage1 : 1 ≤ env.reliableMessagePageSize) :
    ∀ (fuel : Nat) (db : RMDb) (lpe : Option Nat) (total : Nat)
      (sent : List ReliableMessage),
      (db.msgs.map (fun m => m.Sequence)).Nodup →
      (db.msgs.map (fun m => m.ID)).Nodup →
      (∀ m ∈ db.msgs, buildOutcomeFor env m ≠ .retryableError) →
      (∀ m ∈ db.msgs, buildOutcomeFor env m = .ok → env.sendOk m = true) →
      (pendingRows db lpe).length < fuel →
      (scanLoop env st true fuel db lpe total sent).ok = true
      ∧ (∀ x ∈ sent, x ∈ (scanLoop env st true fuel db lpe total sent).sent)
      ∧ (∀ i, db.hasAck i = true →
          (scanLoop env st true fuel db lpe total sent).db.hasAck i = true)
      ∧ (∀ m ∈ db.msgs, db.hasAck m.ID = false → condSeqB lpe m = true →
          (buildOk env m = true →
            m ∈ (scanLoop env st true fuel db lpe total sent).sent)
          ∧ (buildPermErr env m = true →
            (scanLoop env st true fuel db lpe total sent).db.hasAck m.ID = true)) := by
  intro fuel
  induction fuel with
  | zero =>
    intro db lpe total sent _ _ _ _ hlt
    exact absurd hlt (Nat.not_lt_zero _)
  | succ fuel ih =>
    intro db lpe total sent hseq hid hnr hsend hlt
    have hmsgsnodup : db.msgs.Nodup := hid.of_map
    set sorted := sortBySeq (pendingRows db lpe) with hsorted
    set page := scanPage env db true st.lastDrainHWM lpe with hpage
    have hpageq : page = sorted.take env.reliableMessagePageSize := by
      rw [hpage, scanPage_full, hsorted]
    have hpagemem : ∀ m ∈ page, m ∈ pendingRows db lpe := by
      intro m hm
      rw [hpageq] at hm
      exact (sortBySeq_perm _).mem_iff.mp (List.mem_of_mem_take hm)
    have hpagemsgs : ∀ m ∈ page, m ∈ db.msgs := fun m hm =>
      ((pendingRows_mem db lpe m).mp (hpagemem m hm)).1
    set acksL := (page.filter (fun m => buildPermErr env m)).map (ackOf env)
      with hacksL
    set sentL := page.filter (fun m => buildOk env m) with hsentL
    set res := processReliableMsgPage env db st.lastDrainHWM page with hres
    have hresq : res = { db := persistAcks db acksL, sent := sentL, ok := true } := by
      rw [hres, hhwm, hacksL, hsentL]
      exact processPage_none env db page
        (fun m hm => hnr m (hpagemsgs m hm))
        (fun m hm => hsend m (hpagemsgs m hm))
    have hresdb : res.db = persistAcks db acksL := by rw [hresq]
    have hressent : res.sent = sentL := by rw [hresq]
    have hresok : res.ok = true := by rw [hresq]
    have hackmono : ∀ i, db.hasAck i = true → (persistAcks db acksL).hasAck i = true :=
      fun i hi => hasAck_persistAcks_mono db acksL i hi
    have hperm_ack : ∀ m ∈ page, buildPermErr env m = true →
        (persistAcks db acksL).hasAck m.ID = true := by
      intro m hm hpe
      rw [hasAck_persistAcks]
      have hany : acksL.any (fun a => a.MessageID == m.ID) = true := by
        rw [List.any_eq_true]
        refine ⟨ackOf env m, ?_, by simp [ackOf]⟩
        rw [hacksL]
        exact List.mem_map_of_mem _ (List.mem_filter.mpr ⟨hm, hpe⟩)
      rw [hany, Bool.or_true]
    rw [scanLoop_succ_eq env st true fuel db lpe total sent page res hpage hres,
        hresok, hresdb, hressent]
    simp only [Bool.not_true, Bool.false_eq_true, if_false]
    by_cases hshort : page.length < env.reliableMessagePageSize
    · -- short page: the loop stops here
      rw [if_pos hshort]
      have hfull : page = sorted := by
        rw [hpageq]
        apply List.take_of_length_le
        have h1 : page.length = min env.reliableMessagePageSize sorted.length := by
          rw [hpageq, List.length_take]
        omega
      refine ⟨rfl, ?_, ?_, ?_⟩
      · intro x hx
        exact List.mem_append_left _ hx
      · intro i hi
        exact hackmono i hi
      · intro m hm hack hcond
        have hpend : m ∈ pendingRows db lpe :=
          (pendingRows_mem db lpe m).mpr ⟨hm, hack, hcond⟩
        have hmempage : m ∈ page := by
          rw [hfull]
          exact (sortBySeq_perm _).mem_iff.mpr hpend
        constructor
        · intro hbo
          refine List.mem_append_right _ ?_
          rw [hsentL]
          exact List.mem_filter.mpr ⟨hmempage, hbo⟩
        · intro hpe
          exact hperm_ack m hmempage hpe
    · -- full page: recurse
      have h1 : page.length = min env.reliableMessagePageSize sorted.length := by
        rw [hpageq, List.length_take]
      have hplen : page.length = env.reliableMessagePageSize := by omega
      have hPle : env.reliableMessagePageSize ≤ sorted.length := by omega
      have hne : page ≠ [] := by
        intro h0
        rw [h0] at hplen
        simp at hplen
        omega
      have hlastsome : page.getLast?.isSome := by
        simp [List.getLast?_isSome, hne]
      obtain ⟨last, hlast⟩ := Option.isSome_iff_exists.mp hlastsome
      have hlastpage : last ∈ page := List.mem_of_mem_getLast? hlast
      have hpagesorted : page.Sorted (fun a b => a.Sequence ≤ b.Sequence) := by
        rw [hpageq]
        exact (sortBySeq_sorted _).sublist
          (List.take_sublist env.reliableMessagePageSize sorted)
      have hmax : ∀ p ∈ page, p.Sequence ≤ last.Sequence :=
        sorted_le_getLast page hpagesorted last hlast
      set rest := sorted.drop env.reliableMessagePageSize with hrest
      have hsplit : page ++ rest = sorted := by
        rw [hpageq, hrest]
        exact List.take_append_drop _ _
      have hlastpend : last ∈ pendingRows db lpe := hpagemem last hlastpage
      have hcondlast : condSeqB lpe last = true :=
        ((pendingRows_mem db lpe last).mp hlastpend).2.2
      have hcondnext : ∀ m1 : ReliableMessage,
          last.Sequence < m1.Sequence → condSeqB lpe m1 = true := by
        intro m1 hlt1
        cases lpe with
        | none => rfl
        | some e =>
          simp only [condSeqB, decide_eq_true_eq] at hcondlast ⊢
          omega
      have hrestmem : ∀ m1 ∈ pendingRows db lpe, m1 ∉ page → m1 ∈ rest := by
        intro m1 hm1 hnp
        have : m1 ∈ sorted := (sortBySeq_perm _).mem_iff.mpr hm1
        rw [← hsplit] at this
        rcases List.mem_append.mp this with h | h
        · exact absurd h hnp
        · exact h
      have hreststrict : ∀ m1 ∈ rest, m1 ∉ page → last.Sequence < m1.Sequence := by
        intro m1 hm1 hnp
        have hle : last.Sequence ≤ m1.Sequence := by
          refine (sortBySeq_sorted (pendingRows db lpe)).rel_of_mem_take_of_mem_drop
            (k := env.reliableMessagePageSize) ?_ ?_
          · rw [← hsorted, ← hpageq]
            exact hlastpage
          · rw [← hsorted, ← hrest]
            exact hm1
        have hne1 : last.Sequence ≠ m1.Sequence := by
          intro he
          have hm1msgs : m1 ∈ db.msgs := by
            have : m1 ∈ sorted := by
              rw [← hsplit]
              exact List.mem_append_right _ hm1
            have hp := (sortBySeq_perm _).mem_iff.mp this
            exact ((pendingRows_mem db lpe m1).mp hp).1
          have := List.inj_on_of_nodup_map hseq (hpagemsgs last hlastpage) hm1msgs he
          exact hnp (this ▸ hlastpage)
        omega
      -- apply the induction hypothesis at the advanced state
      have hfuel' : (pendingRows (persistAcks db acksL) (some last.Sequence)).length
          < fuel := by
        have hsub1 : List.Sublist (pendingRows (persistAcks db acksL) (some last.Sequence))
            (pendingRows db (some last.Sequence)) := by
          show List.Sublist
            ((persistAcks db acksL).msgs.filter
              (fun m => !((persistAcks db acksL).hasAck m.ID)
                && condSeqB (some last.Sequence) m))
            (db.msgs.filter
              (fun m => !(db.hasAck m.ID) && condSeqB (some last.Sequence) m))
          rw [persistAcks_msgs]
          apply List.monotone_filter_right
          intro a ha
          rcases (Bool.and_eq_true _ _).mp ha with ⟨ha1, ha2⟩
          have hfa : (persistAcks db acksL).hasAck a.ID = false := by simpa using ha1
          have hfa' : db.hasAck a.ID = false := by
            cases hdb : db.hasAck a.ID with
            | false => rfl
            | true =>
              rw [hasAck_persistAcks, hdb, Bool.true_or] at hfa
              cases hfa
          simp [hfa', ha2]
        have hsub2 : pendingRows db (some last.Sequence) ⊆ rest := by
          intro m1 hm1
          rcases (pendingRows_mem db _ m1).mp hm1 with ⟨hm1m, hm1a, hm1c⟩
          have hstrict : last.Sequence < m1.Sequence := by
            simpa [condSeqB, decide_eq_true_eq] using hm1c
          have hnp : m1 ∉ page := by
            intro hp
            have := hmax m1 hp
            omega
          refine hrestmem m1 ?_ hnp
          exact (pendingRows_mem db lpe m1).mpr ⟨hm1m, hm1a, hcondnext m1 hstrict⟩
        have hnodup2 : (pendingRows db (some last.Sequence)).Nodup :=
          hmsgsnodup.filter _
        have hlen2 : (pendingRows db (some last.Sequence)).length ≤ rest.length :=
          length_le_of_subset_nodup hnodup2 hsub2
        have hlen1 := hsub1.length_le
        have hlenrest : rest.length = sorted.length - env.reliableMessagePageSize := by
          rw [hrest, List.length_drop]
        have hlensorted : sorted.length = (pendingRows db lpe).length :=
          (sortBySeq_perm _).length_eq
        omega
      have hIH := ih (persistAcks db acksL) (some last.Sequence)
        (total + page.length) (sent ++ sentL)
        (by rw [persistAcks_msgs]; exact hseq)
        (by rw [persistAcks_msgs]; exact hid)
        (by rw [persistAcks_msgs]; exact hnr)
        (by rw [persistAcks_msgs]; exact hsend)
        hfuel'
      rcases hIH with ⟨hok', hsentm, hackm, hper⟩
      simp only [hlast]
      rw [if_neg hshort]
      refine ⟨hok', ?_, ?_, ?_⟩
      · intro x hx
        exact hsentm x (List.mem_append_left _ hx)
      · intro i hi
        exact hackm i (hackmono i hi)
      · intro m hm hack hcond
        by_cases hmpage : m ∈ page
        · constructor
          · intro hbo
            refine hsentm m (List.mem_append_right _ ?_)
            rw [hsentL]
            exact List.mem_filter.mpr ⟨hmpage, hbo⟩
          · intro hpe
            exact hackm m.ID (hperm_ack m hmpage hpe)
        · have hpend : m ∈ pendingRows db lpe :=
            (pendingRows_mem db lpe m).mpr ⟨hm, hack, hcond⟩
          have hmrest : m ∈ rest := hrestmem m hpend hmpage
          have hstrict : last.Sequence < m.Sequence := hreststrict m hmrest hmpage
          have hack' : (persistAcks db acksL).hasAck m.ID = false := by
            rw [hasAck_persistAcks, hack, Bool.false_or]
            rw [List.any_eq_false]
            intro a ha
            rw [hacksL] at ha
            rcases List.mem_map.mp ha with ⟨p, hpf, hap⟩
            have hppage := (List.mem_filter.mp hpf).1
            rw [← hap]
            cases hbeq : ((ackOf env p).MessageID == m.ID) with
            | false => simp
            | true =>
              have hpid : p.ID = m.ID := by simpa [ackOf] using hbeq
              have hpm : p = m :=
                List.inj_on_of_nodup_map hid (hpagemsgs p hppage) hm hpid
              exact absurd (hpm ▸ hppage) hmpage
          have hcond2 : condSeqB (some last.Sequence) m = true := by
            simp [condSeqB, hstrict]
          have := hper m (by rw [persistAcks_msgs]; exact hm) hack' hcond2
          exact this

/-- Whatever a scan sends is an unacked stored row that built. -/
theorem reliableMessageScan_sent_of (env : PeerEnv) (st : ScanState) (db : RMDb)
    (checkNew : Bool) (x : ReliableMessage)
    (hx : x ∈ (reliableMessageScan env st db checkNew).sent) :
    x ∈ db.msgs ∧ db.hasAck x.ID = false ∧ buildOutcomeFor env x = .ok := by
  simp only [reliableMessageScan] at hx
  split at hx
  · cases hx
  · rcases scanLoop_sent_of env st _ _ db none 0 [] x hx with h | h
    · cases h
    · exact h

/-- With no drain mark the scan is a full scan from the start. -/
theorem reliableMessageScan_none (env : PeerEnv) (st : ScanState) (db : RMDb)
    (checkNew : Bool) (h : st.lastDrainHWM = none) :
    reliableMessageScan env st db checkNew
      = scanLoop env st true (db.msgs.length + 1) db none 0 [] := by
  unfold reliableMessageScan
  simp [h]

end Transportmgr

open Transportmgr in
/-- C2: the scan never selects a message that already has an ack row;
a message whose wire form does not build is never sent; and a full
scan with no drain mark succeeds and, provided no build hits a
retryable infrastructure error and the transport accepts the sends,
sends every unacked persisted message whose wire form builds and
writes an error ack for every unacked message whose build fails
permanently — so unacked messages are retransmitted by every full scan
until an ack row exists for their id. -/
theorem c2_reliable_message_scan :
    (∀ (env : PeerEnv) (st : ScanState) (db : RMDb) (checkNew : Bool)
       (m : ReliableMessage), db.hasAck m.ID = true →
       m ∉ (reliableMessageScan env st db checkNew).sent)
    ∧ (∀ (env : PeerEnv) (st : ScanState) (db : RMDb) (checkNew : Bool)
        (m : ReliableMessage), buildOutcomeFor env m ≠ .ok →
        m ∉ (reliableMessageScan env st db checkNew).sent)
    ∧ (∀ (env : PeerEnv) (st : ScanState) (db : RMDb) (checkNew : Bool),
        st.lastDrainHWM = none →
        1 ≤ env.reliableMessagePageSize →
        (db.msgs.map (fun m => m.Sequence)).Nodup →
        (db.msgs.map (fun m => m.ID)).Nodup →
        (∀ m ∈ db.msgs, buildOutcomeFor env m ≠ .retryableError) →
        (∀ m ∈ db.msgs, buildOutcomeFor env m = .ok → env.sendOk m = true) →
        (reliableMessageScan env st db checkNew).ok = true
        ∧ (∀ m ∈ db.msgs, db.hasAck m.ID = false →
            (buildOutcomeFor env m = .ok →
              m ∈ (reliableMessageScan env st db checkNew).sent)
            ∧ (∀ e, buildOutcomeFor env m = .permanentError e →
                (reliableMessageScan env st db checkNew).db.hasAck m.ID = true))) := by
  refine ⟨?_, ?_, ?_⟩
  · intro env st db checkNew m hack hmem
    have h := reliableMessageScan_sent_of env st db checkNew m hmem
    rw [h.2.1] at hack
    cases hack
  · intro env st db checkNew m hnb hmem
    exact hnb (reliableMessageScan_sent_of env st db checkNew m hmem).2.2
  · intro env st db checkNew hhwm hp1 hseq hid hnr hsend
    rw [reliableMessageScan_none env st db checkNew hhwm]
    have hfuel : (pendingRows db none).length < db.msgs.length + 1 := by
      have h := List.length_filter_le
        (fun m => !(db.hasAck m.ID) && condSeqB (none : Option Nat) m) db.msgs
      simp only [pendingRows]
      omega
    have hmain := scanLoop_complete env st hhwm hp1 (db.msgs.length + 1) db none 0 []
      hseq hid hnr hsend hfuel
    rcases hmain with ⟨hok, _, _, hper⟩
    refine ⟨hok, ?_⟩
    intro m hm hack
    have h1 := hper m hm hack rfl
    constructor
    · intro hbo
      exact h1.1 ((buildOk_iff env m).mpr hbo)
    · intro e he
      exact h1.2 ((buildPermErr_iff env m).mpr ⟨e, he⟩)

open Transportmgr in
/-- C2 witness: three persisted rows paged one at a time — the
already-acked row and the permanently failing row are not sent, the
scan succeeds, the buildable row is sent, and the failing row ends up
acked. -/
theorem c2_reliable_message_scan_witness :
    m3C2 ∉ (reliableMessageScan envC2 stC2 dbC2 true).sent
    ∧ m2C2 ∉ (reliableMessageScan envC2 stC2 dbC2 true).sent
    ∧ (reliableMessageScan envC2 stC2 dbC2 true).ok = true
    ∧ m1C2 ∈ (reliableMessageScan envC2 stC2 dbC2 true).sent
    ∧ (reliableMessageScan envC2 stC2 dbC2 true).db.hasAck 2 = true :=
  ⟨c2_reliable_message_scan.1 envC2 stC2 dbC2 true m3C2 (by decide),
   c2_reliable_message_scan.2.1 envC2 stC2 dbC2 true m2C2 (by decide),
   (c2_reliable_message_scan.2.2 envC2 stC2 dbC2 true rfl (by decide) (by decide)
     (by decide) (by decide) (by decide)).1,
   ((c2_reliable_message_scan.2.2 envC2 stC2 dbC2 true rfl (by decide) (by decide)
     (by decide) (by decide) (by decide)).2 m1C2 (by decide) (by decide)).1 (by decide),
   ((c2_reliable_message_scan.2.2 envC2 stC2 dbC2 true rfl (by decide) (by decide)
     (by decide) (by decide) (by decide)).2 m2C2 (by decide) (by decide)).2 "bad"
       (by decide)⟩

end Paladin
